import Mathlib

/-
  Verification of the data-plane core of an AIStore storage target.

  This file shallowly embeds the Go code of the repository in Lean 4:
  pure functions become Lean functions, Go maps become association lists,
  stateful code becomes explicit state passing, channels become lists of
  queued messages, and goroutine loops are modelled at the points where
  they process one message.  Theorems at the end of the file settle the
  behavioral claims on these embeddings.
-/

set_option linter.unusedVariables false

namespace AIStore

/-! ## Association lists: the model of Go's `map[K]V`

Only `lookup` (`m[k]`), `insert` (`m[k] = v`), `erase` (`delete(m, k)`),
keys and length are ever used by the embedded code. -/

section Assoc

variable {α : Type} {β : Type} [DecidableEq α]

/-- `m[k]` of a Go map, as lookup in an association list. -/
def alookup (k : α) : List (α × β) → Option β
  | [] => none
  | (k', v) :: t => if k' = k then some v else alookup k t

/-- `delete(m, k)` of a Go map: drop every pair with key `k`. -/
def aerase (k : α) : List (α × β) → List (α × β)
  | [] => []
  | e :: t => if e.1 = k then aerase k t else e :: aerase k t

/-- `m[k] = v` of a Go map: overwrite the binding of `k`. -/
def ainsert (k : α) (v : β) (l : List (α × β)) : List (α × β) :=
  (k, v) :: aerase k l

/-- Key set of a Go map. -/
def akeys (l : List (α × β)) : List α :=
  l.map Prod.fst

end Assoc

/-! ## Mountpath manager (`fs.MountedFS`, `fs` package)

The embedding keeps, for every mountpath, exactly the fields the claims
touch: the cleaned path (the map key), the original path and the fsid.
Filesystem facts that Go obtains from syscalls (`filepath.Clean`,
`os.Stat`/`syscall.Statfs`, the fsid of the filesystem hosting a path)
are supplied by an explicit world record. -/

/-- The fields of `fs.MountpathInfo` used by the mountpath claims:
cleaned path, path as entered by the user, and the filesystem id. -/
structure MountpathInfo where
  path : String
  origPath : String
  fsid : Nat
  deriving DecidableEq, Repr

/-- Filesystem environment: `filepath.Clean`, success of the
`os.Stat`/`syscall.Statfs`/`Fqn2fsAtStartup` probes, and the fsid that
`syscall.Statfs` reports for a path. -/
structure FsWorld where
  clean : String → String
  statOk : String → Bool
  fsidOf : String → Nat
  deriving Inhabited

/-- The mutable state of `fs.MountedFS`: fsid registry, the fsid-check
flag, and the published available/disabled maps (cleaned path → info). -/
structure MountedFS where
  fsIDs : List (Nat × String)
  checkFsID : Bool
  available : List (String × MountpathInfo)
  disabled : List (String × MountpathInfo)
  deriving DecidableEq, Repr

/-- `NewMountedFS`: empty maps, fsid check enabled. -/
def NewMountedFS : MountedFS :=
  { fsIDs := [], checkFsID := true, available := [], disabled := [] }

/-- The reserved bucket-locality segment checks at the top of
`MountedFS.Add`: the path may not end with `/local` or `/cloud` and may
not contain `/local/` or `/cloud/`. -/
def hasInvalidSegment (mpath : String) : Bool :=
  ["local", "cloud"].any (fun bucket =>
    let invalidMpath := "/" ++ bucket
    mpath.endsWith invalidMpath || (mpath.splitOn (invalidMpath ++ "/")).length > 1)

attribute [irreducible] hasInvalidSegment

/-- `newMountpath`: clean the path, record the original and the fsid
reported by `syscall.Statfs` for the entered path. -/
def newMountpath (w : FsWorld) (path : String) : MountpathInfo :=
  { path := w.clean path, origPath := path, fsid := w.fsidOf path }

namespace MountedFS

/-- `MountedFS.Add`: reject reserved segments, unstat-able paths,
already-registered paths and (when the fsid check is on) duplicate
fsids; otherwise publish the new mountpath as available and register
its fsid. -/
def Add (w : FsWorld) (mfs : MountedFS) (mpath : String) : Except String MountedFS :=
  if hasInvalidSegment mpath then
    .error "cannot add fspath with reserved suffix"
  else if ¬ w.statOk mpath then
    .error "fspath does not exist or cannot statfs"
  else
    let mp := newMountpath w mpath
    if (alookup mp.path mfs.available).isSome then
      .error "tried to add already registered mountpath"
    else if (alookup mp.fsid mfs.fsIDs).isSome ∧ mfs.checkFsID then
      .error "tried to add path but same fsid was already registered"
    else
      .ok { mfs with
              available := ainsert mp.path mp mfs.available,
              fsIDs := ainsert mp.fsid mpath mfs.fsIDs }

/-- Result of a successful `MountedFS.Remove`: the new state, plus
whether the "removed the last available mountpath" error was logged. -/
structure RemoveOk where
  mfs : MountedFS
  loggedLastRemoved : Bool
  deriving DecidableEq, Repr

/-- `MountedFS.Remove`: search available then disabled; error when the
cleaned path is registered in neither.  Removing the last available
mountpath logs an error (`loggedLastRemoved`) but still succeeds. -/
def Remove (w : FsWorld) (mfs : MountedFS) (mpath : String) : Except String RemoveOk :=
  let c := w.clean mpath
  match alookup c mfs.available with
  | none =>
    match alookup c mfs.disabled with
    | none => .error "tried to remove non-existing mountpath"
    | some mp =>
      .ok { mfs := { mfs with
                       disabled := aerase c mfs.disabled,
                       fsIDs := aerase mp.fsid mfs.fsIDs },
            loggedLastRemoved := false }
  | some mp =>
    let available := aerase c mfs.available
    .ok { mfs := { mfs with
                     available := available,
                     fsIDs := aerase mp.fsid mfs.fsIDs },
          loggedLastRemoved := available.length = 0 }

/-- `MountedFS.Enable`: returns `(enabled, exists)`.  A mountpath that
is already available returns `(false, true)` and changes nothing; a
disabled one moves to available with `(true, true)`; an unregistered
path returns `(false, false)`. -/
def Enable (w : FsWorld) (mfs : MountedFS) (mpath : String) :
    (Bool × Bool) × MountedFS :=
  let c := w.clean mpath
  if (alookup c mfs.available).isSome then
    ((false, true), mfs)
  else
    match alookup c mfs.disabled with
    | some mp =>
      ((true, true),
       { mfs with
           available := ainsert c mp mfs.available,
           disabled := aerase c mfs.disabled })
    | none => ((false, false), mfs)

/-- `MountedFS.Disable`: returns `(disabled, exists)`, moving an
available mountpath to the disabled map. -/
def Disable (w : FsWorld) (mfs : MountedFS) (mpath : String) :
    (Bool × Bool) × MountedFS :=
  let c := w.clean mpath
  match alookup c mfs.available with
  | some mpathInfo =>
    ((true, true),
     { mfs with
         disabled := ainsert c mpathInfo mfs.disabled,
         available := aerase c mfs.available })
  | none =>
    if (alookup c mfs.disabled).isSome then
      ((false, true), mfs)
    else
      ((false, false), mfs)

end MountedFS

/-- One mountpath-manager call, for iterating lifecycle sequences
(claim C10 quantifies over sequences of these four operations). -/
inductive MfsOp where
  | add (p : String)
  | remove (p : String)
  | enable (p : String)
  | disable (p : String)
  deriving DecidableEq, Repr

/-- Apply one operation, keeping only the resulting state (a failed
`Add`/`Remove` leaves the state unchanged, as in the source). -/
def applyMfsOp (w : FsWorld) (mfs : MountedFS) : MfsOp → MountedFS
  | .add p =>
    match MountedFS.Add w mfs p with
    | .ok mfs' => mfs'
    | .error _ => mfs
  | .remove p =>
    match MountedFS.Remove w mfs p with
    | .ok r => r.mfs
    | .error _ => mfs
  | .enable p => (MountedFS.Enable w mfs p).2
  | .disable p => (MountedFS.Disable w mfs p).2

/-- Run a sequence of mountpath-manager operations from a fresh manager. -/
def runMfsOps (w : FsWorld) (ops : List MfsOp) : MountedFS :=
  ops.foldl (applyMfsOp w) NewMountedFS

/-- All registered mountpath entries: the available ones followed by
the disabled ones. -/
def RegEntries (mfs : MountedFS) : List (String × MountpathInfo) :=
  mfs.available ++ mfs.disabled

/-- The inductive invariant of the mountpath manager: duplicate-free
published maps with disjoint key sets, every registered mountpath's fsid
recorded in the fsid registry and agreeing with the filesystem of its
cleaned path, fsids unique across registered mountpaths, and the fsid
check enabled (as `NewMountedFS` initializes it; none of the four
lifecycle operations flips it). -/
def MfsInv (w : FsWorld) (mfs : MountedFS) : Prop :=
  (akeys mfs.available).Nodup ∧
  (akeys mfs.disabled).Nodup ∧
  (∀ k ∈ akeys mfs.available, k ∉ akeys mfs.disabled) ∧
  (∀ e ∈ RegEntries mfs, e.2.fsid ∈ akeys mfs.fsIDs) ∧
  (∀ e ∈ RegEntries mfs, e.2.fsid = w.fsidOf e.1) ∧
  (∀ e₁ ∈ RegEntries mfs, ∀ e₂ ∈ RegEntries mfs, e₁.1 ≠ e₂.1 → e₁.2.fsid ≠ e₂.2.fsid) ∧
  mfs.checkFsID = true

/-! ## Per-target coordinator: mountpath removal (`ais.fsprungroup`) -/

/-- Outcome of `fsprungroup.removeMountpath`: the resulting mountpath
state, whether the call failed, and whether `checkNoMountpaths` made the
target unregister itself (`t.disable()`) because no available mountpath
remained. -/
structure RemoveMountpathOut where
  mfs : MountedFS
  failed : Bool
  unregistered : Bool
  deriving DecidableEq, Repr

/-- `fsprungroup.removeMountpath`: delegate to `MountedFS.Remove`; on
success notify the path runners and run `checkNoMountpaths`, which
unregisters the target exactly when the available map is empty. -/
def removeMountpath (w : FsWorld) (mfs : MountedFS) (mpath : String) : RemoveMountpathOut :=
  match MountedFS.Remove w mfs mpath with
  | .error _ => { mfs := mfs, failed := true, unregistered := false }
  | .ok r =>
    { mfs := r.mfs, failed := false,
      unregistered := r.mfs.available.length = 0 }

/-! ## Xaction base (`cmn.XactBase`, src/unnamed/part_006)

The abort channel cannot be closed twice without a runtime panic, so the
model counts `close(xact.abrt)` calls; the claim is that this counter
never exceeds one. -/

/-- The fields of `cmn.XactBase` the lifecycle claims use: end-time
(`eutime`, 0 means running), the `aborted` flag, and the number of times
`close(xact.abrt)` has been executed. -/
structure XactBase where
  eutime : Int
  aborted : Bool
  abrtCloseCount : Nat
  deriving DecidableEq, Repr

/-- `NewXactBase`: running (no end-time), not aborted, channel open. -/
def NewXactBase : XactBase :=
  { eutime := 0, aborted := false, abrtCloseCount := 0 }

/-- `XactBase.Finished`: the end-time has been stored. -/
def XactBase.Finished (xact : XactBase) : Bool :=
  xact.eutime ≠ 0

/-- `XactBase.Abort` at wall-clock `now` (`time.Now().UnixNano()`): a
compare-and-swap on `aborted` guards the end-time store and the channel
close, so a second call returns immediately. -/
def XactBase.Abort (xact : XactBase) (now : Int) : XactBase :=
  if xact.aborted then
    xact
  else
    { xact with
        aborted := true,
        eutime := now,
        abrtCloseCount := xact.abrtCloseCount + 1 }

/-- Repeated `Abort` calls at the given timestamps (first call first). -/
def abortCalls (xact : XactBase) : List Int → XactBase
  | [] => xact
  | now :: rest => abortCalls (xact.Abort now) rest

/-! ## Demand xactions (`cmn.XactDemandBase`, src/unnamed/part_006)

`Renew` stores 1 into the renewal counter; `Timeout` returns false when
pending work exists, and otherwise decrements the counter and reports
whether it became negative. -/

/-- The demand-xaction counters: `renew` and `pending` (both
`atomic.Int64` in the source). -/
structure XactDemandBase where
  renew : Int
  pending : Int
  deriving DecidableEq, Repr

/-- `NewXactDemandBase`: both counters start at zero. -/
def NewXactDemandBase : XactDemandBase :=
  { renew := 0, pending := 0 }

/-- `XactDemandBase.Renew`: store 1 into the renewal counter. -/
def XactDemandBase.Renew (r : XactDemandBase) : XactDemandBase :=
  { r with renew := 1 }

/-- `XactDemandBase.IncPending`. -/
def XactDemandBase.IncPending (r : XactDemandBase) : XactDemandBase :=
  { r with pending := r.pending + 1 }

/-- `XactDemandBase.DecPending`. -/
def XactDemandBase.DecPending (r : XactDemandBase) : XactDemandBase :=
  { r with pending := r.pending - 1 }

/-- `XactDemandBase.Timeout`: the returned Bool and the state after the
call (the decrement of `renew` is a side effect of the check). -/
def XactDemandBase.Timeout (r : XactDemandBase) : Bool × XactDemandBase :=
  if r.pending > 0 then
    (false, r)
  else
    (r.renew - 1 < 0, { r with renew := r.renew - 1 })

/-- The calls a client can make on a demand xaction between ticks. -/
inductive DemandOp where
  | renewOp
  | incPendingOp
  | decPendingOp
  | timeoutOp
  deriving DecidableEq, Repr

/-- Apply one demand-xaction call (the Bool result of `Timeout` is
dropped; `demandRun` recomputes it where needed). -/
def applyDemandOp (r : XactDemandBase) : DemandOp → XactDemandBase
  | .renewOp => r.Renew
  | .incPendingOp => r.IncPending
  | .decPendingOp => r.DecPending
  | .timeoutOp => r.Timeout.2

/-- Run a call sequence on a fresh demand xaction. -/
def demandRun (ops : List DemandOp) : XactDemandBase :=
  ops.foldl applyDemandOp NewXactDemandBase

/-- Follows the claim wording: has `Renew()` NOT been called since the
previous `Timeout()` check (counting every `Timeout()` call as a check;
true at the start when neither has happened yet)? -/
def specNoRenewSinceLastCheck (ops : List DemandOp) : Bool :=
  ops.foldl
    (fun flag op =>
      match op with
      | .renewOp => false
      | .timeoutOp => true
      | _ => flag)
    true

/-- One step of the bookkeeping behind the amended claim wording: the
demand-xaction state paired with the flag "`Renew()` has not been called
since the previous `Timeout()` check that observed no pending work". -/
def consumingStep (st : XactDemandBase × Bool) : DemandOp → XactDemandBase × Bool
  | .renewOp => (st.1.Renew, false)
  | .incPendingOp => (st.1.IncPending, st.2)
  | .decPendingOp => (st.1.DecPending, st.2)
  | .timeoutOp => (st.1.Timeout.2, if st.1.pending > 0 then st.2 else true)

/-- The amended claim wording: has `Renew()` not been called since the
previous `Timeout()` check that observed no pending work (only such a
check consumes the renewal flag)? -/
def specNoRenewSinceConsumingCheck (ops : List DemandOp) : Bool :=
  (ops.foldl consumingStep (NewXactDemandBase, true)).2

/-! ## Mirror engine: copy-destination selection
(`mirror.findLeastUtilized`, src/unnamed/part_000) -/

/-- Environment for the mirror engine: disk utilization of a mountpath
(`fs.Mountpaths.Iostats.GetDiskUtil`) and FQN parsing
(`fs.Mountpaths.FQN2Info`, `none` when parsing fails), which yields the
mountpath path hosting a copy. -/
structure MirrorEnv where
  utilOf : String → Int
  fqn2mpath : String → Option String

/-- The LOM fields `findLeastUtilized` reads: the mountpath hosting the
primary replica (`ParsedFQN.MpathInfo.Path`) and the copy-FQN list. -/
structure MirrorLOM where
  primaryMpath : String
  copyFQN : List String
  deriving DecidableEq, Repr

/-- Modelled from the spec: `LOM.HasCopies` (the `cluster.LOM` method is
not in the provided sources) — whether the local-mirror copy list is
non-empty. -/
def MirrorLOM.HasCopies (lom : MirrorLOM) : Bool :=
  !lom.copyFQN.isEmpty

/-- The inner `for _, cpyfqn := range lom.CopyFQN()` loop: the candidate
mountpath `j` is skipped (`continue loop`) when some copy FQN fails to
parse or resides on `j`. -/
def copyBlocks (env : MirrorEnv) (j : String) : List String → Bool
  | [] => false
  | cpyfqn :: rest =>
    match env.fqn2mpath cpyfqn with
    | none => true
    | some p => if j = p then true else copyBlocks env j rest

/-- The outer loop of `findLeastUtilized`, threading the current best
candidate `out` and its utilization `util` (initially the sentinel 101). -/
def fluLoop (env : MirrorEnv) (lom : MirrorLOM) :
    List String → Option String → Int → Option String × Int
  | [], out, util => (out, util)
  | j :: rest, out, util =>
    if j = lom.primaryMpath then
      fluLoop env lom rest out util
    else if lom.HasCopies ∧ copyBlocks env j lom.copyFQN then
      fluLoop env lom rest out util
    else if env.utilOf j < util then
      fluLoop env lom rest (some j) (env.utilOf j)
    else
      fluLoop env lom rest out util

/-- `mirror.findLeastUtilized`: pick, among candidate mountpaths that
host neither the primary nor one of its copies, one with the lowest
disk utilization; `none` when no candidate survives. -/
def findLeastUtilized (env : MirrorEnv) (lom : MirrorLOM) (mpathers : List String) :
    Option String :=
  (fluLoop env lom mpathers none 101).1

/-- A candidate that the two `continue` checks of `findLeastUtilized` do
not skip. -/
def mirrorSurvivor (env : MirrorEnv) (lom : MirrorLOM) (j : String) : Prop :=
  j ≠ lom.primaryMpath ∧ ¬ (lom.HasCopies ∧ copyBlocks env j lom.copyFQN)

instance (env : MirrorEnv) (lom : MirrorLOM) (j : String) :
    Decidable (mirrorSurvivor env lom j) := by
  unfold mirrorSurvivor
  infer_instance

/-! ## Erasure-coding engine (`ec` package and `ais.ecManager`)

Channels are modelled by their queued contents; the xaction goroutine is
modelled at the point where its `select` loop processes one message. -/

/-- EC errors (`ec.ErrorECDisabled`, `ec.ErrorInsufficientTargets`,
`ec.ErrorNotFound`, plus ad-hoc `errors.New` values). -/
inductive ECErr where
  | ecDisabled
  | insufficientTargets
  | notFound
  | other (msg : String)
  deriving DecidableEq, Repr

/-- `ec.Request` actions (`ec.ActSplit`, `ec.ActDelete`, `ec.ActRestore`). -/
inductive ECAction where
  | split
  | delete
  | restore
  deriving DecidableEq, Repr

/-- The fields of `ec.Request` the claims use: the action, the is-copy
flag and the optional error-reply channel (channels are identified by a
number so that a response can name the channel it went to). -/
structure ECRequest where
  action : ECAction
  isCopy : Bool
  errCh : Option Nat
  deriving DecidableEq, Repr

/-- `ec.RequestsControlMsg` actions. -/
inductive ControlAction where
  | clearRequests
  | enableRequests
  deriving DecidableEq, Repr

/-- Observable effects of the Put xaction loop. -/
inductive PutEvent where
  | errorSent (ch : Nat)
  deriving DecidableEq, Repr

/-- The `ec.XactPut` state the claims touch: the reject marker
(`xactReqBase.rejectReq`), the contents of the request channel `ecCh`,
and whether the xaction has finished (`stop()` stored an end-time). -/
structure XactPut where
  rejectReq : Bool
  ecQueue : List ECRequest
  finished : Bool
  deriving DecidableEq, Repr

/-- `NewPutXact` (src/unnamed/part_005 plus the `xactReqBase` zero
values): requests accepted, empty channel, running. -/
def newPutXact : XactPut :=
  { rejectReq := false, ecQueue := [], finished := false }

/-- `XactPut.abortECRequestWhenDisabled`: when the request carries an
error channel, an "EC disabled" error is sent on it (and it is closed). -/
def abortECRequestWhenDisabled (req : ECRequest) : List PutEvent :=
  match req.errCh with
  | some ch => [.errorSent ch]
  | none => []

/-- One `msg := <-r.controlCh` iteration of `XactPut.Run`:
`ActEnableRequests` clears the reject marker; `ActClearRequests` sets
it, drains `ecCh` failing every pending request on its error channel,
and stops the xaction. -/
def processControlMsg (x : XactPut) (msg : ControlAction) : XactPut × List PutEvent :=
  match msg with
  | .enableRequests => ({ x with rejectReq := false }, [])
  | .clearRequests =>
    (({ x with rejectReq := true, ecQueue := [], finished := true }),
     (x.ecQueue.map abortECRequestWhenDisabled).flatten)

/-- `XactPut.dispatchDecodingRequest` (the enqueue path used by `Encode`
and `Cleanup`): when requests are rejected the request is failed on its
error channel and dropped (third component `true`), otherwise it is
appended to `ecCh`. -/
def dispatchDecodingRequest (x : XactPut) (req : ECRequest) :
    XactPut × List PutEvent × Bool :=
  if x.rejectReq then
    (x, abortECRequestWhenDisabled req, true)
  else
    ({ x with ecQueue := x.ecQueue ++ [req] }, [], false)

/-- `ecManager.enableBck`, restricted to the bucket's Put xaction:
`restoreBckPutXact` returns the current xaction, renewing it when it is
absent or finished (`renewPutEC` is modelled from the spec as creating a
fresh xaction, matching `NewPutXact`); the `ActEnableRequests` control
message is then processed by the xaction's loop. -/
def enablePutRequests (old : Option XactPut) : XactPut :=
  let x :=
    match old with
    | none => newPutXact
    | some x => if x.finished then newPutXact else x
  (processControlMsg x .enableRequests).1

/-! ### `xactECBase.writerReceive` (src/ec/xaction.go) -/

/-- The observable steps of `writerReceive`, in execution order:
signalling the slice wait-group (`writer.wg.Done()`), draining the
response body into `ioutil.Discard`, and copying the body into the
registered writer. -/
inductive WRecvEvent where
  | sigDone
  | drainBody
  | writeBody (n : Int)
  deriving DecidableEq, Repr

/-- `transport.ObjectAttrs` fields used by `writerReceive`. -/
structure ObjectAttrs where
  cksumType : String
  cksumValue : String
  version : String
  deriving DecidableEq, Repr

/-- The registered `slice` writer as `writerReceive` sees it: byte
count `n`, the stamped checksum, and the version. -/
structure SliceWriter where
  written : Int
  cksum : Option (String × String)
  version : String
  deriving DecidableEq, Repr

/-- `xactECBase.writerReceive`: on `exists=false` it signals the
wait-group, drains the body and returns `ErrorNotFound`; otherwise it
copies the body into the registered writer (`copyErr`/`bodyLen` model
the outcome of `io.CopyBuffer`), stamps checksum and version from the
object attributes, and signals the wait-group.  Returns the error, the
updated writer and the event trace in execution order. -/
def writerReceive (writer : SliceWriter) (exists_ : Bool) (objAttrs : ObjectAttrs)
    (bodyLen : Int) (copyErr : Option String) :
    Option ECErr × SliceWriter × List WRecvEvent :=
  if ¬ exists_ then
    (some .notFound, writer, [.sigDone, .drainBody])
  else
    let writer' := { writer with written := bodyLen }
    let writer' := { writer' with cksum := some (objAttrs.cksumType, objAttrs.cksumValue) }
    let writer' :=
      if writer'.version ≠ "" ∧ objAttrs.version ≠ "" then
        { writer' with version := objAttrs.version }
      else
        writer'
    ((copyErr.map ECErr.other), writer', [.writeBody bodyLen, .sigDone])

/-- Follows the claim wording: the wait-group is signalled after the
draining of the body completes (first drain before first signal). -/
def signalsDoneAfterDrain (evs : List WRecvEvent) : Bool :=
  match evs.findIdx? (fun e => decide (e = .drainBody)),
        evs.findIdx? (fun e => decide (e = .sigDone)) with
  | some i, some j => decide (i < j)
  | _, _ => false

/-- The amended wording: the wait-group is signalled and the body is
drained afterwards (first signal before first drain). -/
def signalsDoneBeforeDrain (evs : List WRecvEvent) : Bool :=
  match evs.findIdx? (fun e => decide (e = .sigDone)),
        evs.findIdx? (fun e => decide (e = .drainBody)) with
  | some i, some j => decide (i < j)
  | _, _ => false

/-! ### `ais.ecManager`: EncodeObject / RestoreObject / ListenSmapChanged -/

/-- The `cmn.ECConf` fields used by the EC claims (`ec.enabled`,
`ec.obj_size_limit`, `ec.data_slices`, `ec.parity_slices`). -/
structure ECConf where
  enabled : Bool
  objSizeLimit : Int
  dataSlices : Int
  paritySlices : Int
  deriving DecidableEq, Repr

/-- Modelled from the spec: `ECConf.RequiredEncodeTargets` (the method's
body is not among the provided sources) — "encoding requires at least
`DataSlices + ParitySlices + 1` live targets". -/
def ECConf.RequiredEncodeTargets (c : ECConf) : Int :=
  c.dataSlices + c.paritySlices + 1

/-- Modelled from the spec: `ECConf.RequiredRestoreTargets` — "restore
requires `DataSlices + 1`". -/
def ECConf.RequiredRestoreTargets (c : ECConf) : Int :=
  c.dataSlices + 1

/-- Modelled from the spec: `ec.IsECCopy` — the object is small enough
(below the `ec.obj_size_limit` threshold) to be replicated rather than
split into slices. -/
def IsECCopy (size : Int) (c : ECConf) : Bool :=
  size < c.objSizeLimit

/-- The LOM fields `EncodeObject`/`RestoreObject` read: the bucket's EC
configuration (`lom.BckProps.EC`), the object size, the FQN and the
validity of the parsed mountpath (the two `cmn.Assert`ed conditions). -/
structure ECLom where
  ec : ECConf
  size : Int
  fqn : String
  mpathOk : Bool
  deriving DecidableEq, Repr

/-- The collaborators `EncodeObject` consults: the cached target count
(`mgr.targetCnt`), the out-of-space probe (`lom.T.AvgCapUsed`), the
content-type resolver verdict (`fs.CSM.FileSpec(..).PermToProcess`,
`none` when no spec matches), and the result of `lom.Load`. -/
structure ECMgrEnv where
  targetCnt : Int
  oos : Bool
  fileSpecPerm : Option Bool
  loadErr : Option String
  deriving DecidableEq, Repr

/-- Outcome of an `ecManager` object operation: a `cmn.Assert` panic, an
error return, or a nil return that dispatched the given request (if any)
to the bucket's xaction. -/
inductive ECOutcome where
  | panicked
  | err (e : ECErr)
  | ok (dispatched : Option ECRequest)
  deriving DecidableEq, Repr

/-- `ecManager.EncodeObject`.  On the error paths nothing is dispatched
to a jogger, so the object's LOM on disk is untouched. -/
def EncodeObject (env : ECMgrEnv) (lom : ECLom) : ECOutcome :=
  if ¬ lom.ec.enabled then
    .err .ecDisabled
  else
    let isECCopy := IsECCopy lom.size lom.ec
    let targetCnt := env.targetCnt
    if ¬ isECCopy ∧ targetCnt < lom.ec.RequiredEncodeTargets then
      .err .insufficientTargets
    else if lom.fqn = "" then
      .panicked
    else if ¬ lom.mpathOk then
      .panicked
    else if env.oos then
      .err (.other "OOS")
    else if env.fileSpecPerm = some false then
      .ok none
    else
      let req : ECRequest :=
        { action := .split, isCopy := IsECCopy lom.size lom.ec, errCh := none }
      match env.loadErr with
      | some msg => .err (.other msg)
      | none => .ok (some req)

/-- `ecManager.RestoreObject`.  The `.ok` outcome means the restore
request (with its unbuffered error channel) was dispatched to the Get
xaction; the caller then blocks reading that channel. -/
def RestoreObject (env : ECMgrEnv) (lom : ECLom) : ECOutcome :=
  if ¬ lom.ec.enabled then
    .err .ecDisabled
  else if env.targetCnt < lom.ec.RequiredRestoreTargets then
    .err .insufficientTargets
  else if ¬ lom.mpathOk then
    .panicked
  else
    .ok (some { action := .restore, isCopy := false, errCh := some 0 })

/-- The lifecycle state of one EC xaction as `ec.BckXacts` sees it:
whether it has finished (`Finished()`, i.e. an end-time is stored). -/
structure ECXact where
  finished : Bool
  deriving DecidableEq, Repr

/-- The stop performed by `BckXacts.StopGet`/`StopPut`: when the xaction
exists and has not finished, `stop()` records its end-time. -/
def stopECXact : Option ECXact → Option ECXact
  | some x => if x.finished then some x else some { finished := true }
  | none => none

/-- `ec.BckXacts`: the per-bucket triple of EC xactions. -/
structure BckXacts where
  get : Option ECXact
  put : Option ECXact
  req : Option ECXact
  deriving DecidableEq, Repr

/-- `BckXacts.StopGet`. -/
def BckXacts.StopGet (xs : BckXacts) : BckXacts :=
  { xs with get := stopECXact xs.get }

/-- `BckXacts.StopPut`. -/
def BckXacts.StopPut (xs : BckXacts) : BckXacts :=
  { xs with put := stopECXact xs.put }

/-- The `ecManager` state `ListenSmapChanged` works on: the cluster-map
version it has seen, the cached target count, the bucket metadata
(bucket name → EC configuration, from `bckMD.LBmap`), and the per-bucket
xaction triples. -/
structure ECMgrState where
  smapVersion : Int
  targetCnt : Int
  bckMD : List (String × ECConf)
  xacts : List (String × BckXacts)
  deriving DecidableEq, Repr

/-- One iteration of the per-bucket loop in `ListenSmapChanged`:
`getBckXacts` (which registers an empty triple for an unseen bucket),
then `StopPut` when the target count is below the encode requirement and
`StopGet` when below the restore requirement. -/
def smapGateBucket (targetCnt : Int) (xs : List (String × BckXacts))
    (entry : String × ECConf) : List (String × BckXacts) :=
  let bckXacts := (alookup entry.1 xs).getD ⟨none, none, none⟩
  let bckXacts :=
    if targetCnt < entry.2.RequiredEncodeTargets then bckXacts.StopPut else bckXacts
  let bckXacts :=
    if targetCnt < entry.2.RequiredRestoreTargets then bckXacts.StopGet else bckXacts
  ainsert entry.1 bckXacts xs

/-- One received version on `newSmapVersionChannel` in
`ecManager.ListenSmapChanged`: stale versions are skipped; otherwise the
cached cluster map and target count are updated and every bucket of the
bucket metadata is gated. -/
def ListenSmapChangedStep (mgr : ECMgrState) (newSmapVersion : Int)
    (newTargetCnt : Int) : ECMgrState :=
  if newSmapVersion ≤ mgr.smapVersion then
    mgr
  else
    { mgr with
        smapVersion := newSmapVersion,
        targetCnt := newTargetCnt,
        xacts := mgr.bckMD.foldl (smapGateBucket newTargetCnt) mgr.xacts }

/-- The channel-closed branch of `ListenSmapChanged`: stop the Get and
Put xactions of every bucket and return. -/
def ListenSmapClosed (mgr : ECMgrState) : ECMgrState :=
  { mgr with xacts := mgr.xacts.map (fun e => (e.1, e.2.StopGet.StopPut)) }

/-- The bucket's Put xaction as published in the manager's map. -/
def putXactOf (mgr : ECMgrState) (bck : String) : Option ECXact :=
  (alookup bck mgr.xacts).bind (fun xs => xs.put)

/-- The bucket's Get xaction as published in the manager's map. -/
def getXactOf (mgr : ECMgrState) (bck : String) : Option ECXact :=
  (alookup bck mgr.xacts).bind (fun xs => xs.get)

/-- The bucket's Respond xaction as published in the manager's map. -/
def reqXactOf (mgr : ECMgrState) (bck : String) : Option ECXact :=
  (alookup bck mgr.xacts).bind (fun xs => xs.req)

/-! ## Concrete instances

Small closed instances on which the theorems below are exercised. -/

/-- A concrete filesystem world: cleaning is the identity, every path
stats fine, and the fsid of a path is its length. -/
def w0 : FsWorld :=
  { clean := fun p => p, statOk := fun _ => true, fsidOf := fun p => p.length }

/-- A registered mountpath `"a"`. -/
def mpA : MountpathInfo :=
  { path := "a", origPath := "a", fsid := 1 }

/-- A manager in which `"a"` is available. -/
def mfsAvailA : MountedFS :=
  { fsIDs := [(1, "a")], checkFsID := true, available := [("a", mpA)], disabled := [] }

/-- A manager in which `"a"` is disabled. -/
def mfsDisA : MountedFS :=
  { fsIDs := [(1, "a")], checkFsID := true, available := [], disabled := [("a", mpA)] }

/-- A concrete mirror environment: mountpath `"m1"` is 50% utilized,
every other one 30%; the copy FQN `"fqnc"` parses to mountpath `"m3"`,
every other FQN fails to parse. -/
def env4 : MirrorEnv :=
  { utilOf := fun s => if s = "m1" then 50 else 30,
    fqn2mpath := fun c => if c = "fqnc" then some "m3" else none }

/-- A LOM whose primary lives on `"m0"` with one copy on `"m3"`. -/
def lom4 : MirrorLOM :=
  { primaryMpath := "m0", copyFQN := ["fqnc"] }

/-- An EC configuration with 2 data and 2 parity slices. -/
def conf22 : ECConf :=
  { enabled := true, objSizeLimit := 100, dataSlices := 2, paritySlices := 2 }

/-- An `ecManager` holding one EC bucket `"b"` with running Put, Get and
Respond xactions, at cluster-map version 1 with 5 targets. -/
def mgr0 : ECMgrState :=
  { smapVersion := 1, targetCnt := 5,
    bckMD := [("b", conf22)],
    xacts := [("b", { get := some { finished := false },
                      put := some { finished := false },
                      req := some { finished := false } })] }

/-! ## Theorems

Helper lemmas about the association-list operations, followed by the
claim theorems. -/

section AssocLemmas

variable {α : Type} {β : Type} [DecidableEq α]

theorem mem_aerase {k : α} {l : List (α × β)} {e : α × β} :
    e ∈ aerase k l ↔ e ∈ l ∧ e.1 ≠ k := by
  induction l with
  | nil => simp [aerase]
  | cons e' t ih =>
    by_cases h : e'.1 = k
    · simp only [aerase, h, if_true, ih, List.mem_cons]
      constructor
      · exact fun ⟨h₁, h₂⟩ => ⟨Or.inr h₁, h₂⟩
      · rintro ⟨h₁ | h₁, h₂⟩
        · exact absurd (h₁ ▸ h) h₂
        · exact ⟨h₁, h₂⟩
    · simp only [aerase, h, if_false, List.mem_cons, ih]
      constructor
      · rintro (h₁ | ⟨h₁, h₂⟩)
        · exact ⟨Or.inl h₁, h₁ ▸ h⟩
        · exact ⟨Or.inr h₁, h₂⟩
      · rintro ⟨h₁ | h₁, h₂⟩
        · exact Or.inl h₁
        · exact Or.inr ⟨h₁, h₂⟩

omit [DecidableEq α] in
theorem mem_akeys {k : α} {l : List (α × β)} :
    k ∈ akeys l ↔ ∃ v, (k, v) ∈ l := by
  constructor
  · intro h
    rcases List.mem_map.mp h with ⟨⟨k', v⟩, hmem, hk⟩
    exact ⟨v, by cases hk; exact hmem⟩
  · rintro ⟨v, hv⟩
    exact List.mem_map.mpr ⟨(k, v), hv, rfl⟩

theorem alookup_eq_none {k : α} {l : List (α × β)} :
    alookup k l = none ↔ k ∉ akeys l := by
  induction l with
  | nil => simp [alookup, akeys]
  | cons e t ih =>
    obtain ⟨k', v⟩ := e
    by_cases hk : k' = k
    · subst hk
      simp [alookup, akeys]
    · simp [alookup, hk, akeys, ih]
      intro h
      exact fun hkk => hk hkk.symm

theorem mem_of_alookup {k : α} {v : β} {l : List (α × β)} :
    alookup k l = some v → (k, v) ∈ l := by
  induction l with
  | nil => intro h; simp [alookup] at h
  | cons e t ih =>
    obtain ⟨k', v'⟩ := e
    intro h
    by_cases hk : k' = k
    · subst hk
      simp [alookup] at h
      simp [h]
    · simp [alookup, hk] at h
      exact List.mem_cons_of_mem _ (ih h)

theorem mem_akeys_of_alookup {k : α} {v : β} {l : List (α × β)} :
    alookup k l = some v → k ∈ akeys l := by
  intro h
  exact mem_akeys.mpr ⟨v, mem_of_alookup h⟩

theorem alookup_aerase_self {k : α} (l : List (α × β)) :
    alookup k (aerase k l) = none := by
  rw [alookup_eq_none]
  intro hk
  rcases mem_akeys.mp hk with ⟨v, hv⟩
  exact (mem_aerase.mp hv).2 rfl

theorem alookup_aerase_ne {k k' : α} (l : List (α × β)) (h : k ≠ k') :
    alookup k (aerase k' l) = alookup k l := by
  induction l with
  | nil => simp [aerase]
  | cons e t ih =>
    obtain ⟨k₁, v₁⟩ := e
    by_cases h₁ : k₁ = k'
    · subst h₁
      have hne : ¬ k₁ = k := fun hc => h (hc ▸ rfl)
      simp [aerase, alookup, hne, ih]
    · simp only [aerase, h₁, if_false]
      by_cases h₂ : k₁ = k
      · simp [alookup, h₂]
      · simp [alookup, h₂, ih]

theorem alookup_ainsert_self {k : α} {v : β} (l : List (α × β)) :
    alookup k (ainsert k v l) = some v := by
  simp [ainsert, alookup]

theorem alookup_ainsert_ne {k k' : α} {v : β} (l : List (α × β)) (h : k' ≠ k) :
    alookup k' (ainsert k v l) = alookup k' l := by
  have hne : ¬ k = k' := fun hc => h (hc ▸ rfl)
  simp [ainsert, alookup, hne, alookup_aerase_ne l h]

theorem akeys_nodup_aerase {k : α} {l : List (α × β)} (h : (akeys l).Nodup) :
    (akeys (aerase k l)).Nodup := by
  induction l with
  | nil => simp [aerase, akeys]
  | cons e t ih =>
    obtain ⟨k₁, v₁⟩ := e
    simp only [akeys, List.map_cons, List.nodup_cons] at h
    by_cases h₁ : k₁ = k
    · simpa only [aerase, h₁, if_true] using ih h.2
    · simp only [aerase, h₁, if_false, akeys, List.map_cons, List.nodup_cons]
      refine ⟨?_, ih h.2⟩
      intro hc
      rcases mem_akeys.mp hc with ⟨v, hv⟩
      exact h.1 (mem_akeys.mpr ⟨v, (mem_aerase.mp hv).1⟩)

theorem akeys_nodup_ainsert {k : α} {v : β} {l : List (α × β)} (h : (akeys l).Nodup) :
    (akeys (ainsert k v l)).Nodup := by
  refine List.nodup_cons.mpr ⟨?_, akeys_nodup_aerase h⟩
  intro hc
  rcases mem_akeys.mp hc with ⟨w, hw⟩
  exact (mem_aerase.mp hw).2 rfl

theorem mem_ainsert {k : α} {v : β} {l : List (α × β)} {e : α × β} :
    e ∈ ainsert k v l ↔ e = (k, v) ∨ (e ∈ l ∧ e.1 ≠ k) := by
  simp [ainsert, mem_aerase]

theorem mem_akeys_aerase {x k : α} {l : List (α × β)} :
    x ∈ akeys (aerase k l) ↔ x ∈ akeys l ∧ x ≠ k := by
  constructor
  · intro h
    rcases mem_akeys.mp h with ⟨v, hv⟩
    rcases mem_aerase.mp hv with ⟨hmem, hne⟩
    exact ⟨mem_akeys.mpr ⟨v, hmem⟩, hne⟩
  · rintro ⟨h, hne⟩
    rcases mem_akeys.mp h with ⟨v, hv⟩
    exact mem_akeys.mpr ⟨v, mem_aerase.mpr ⟨hv, hne⟩⟩

theorem mem_akeys_ainsert {x k : α} {v : β} {l : List (α × β)} :
    x ∈ akeys (ainsert k v l) ↔ x = k ∨ (x ∈ akeys l ∧ x ≠ k) := by
  constructor
  · intro h
    rcases mem_akeys.mp h with ⟨v', hv'⟩
    rcases mem_ainsert.mp hv' with h₁ | ⟨h₁, h₂⟩
    · exact Or.inl (congrArg Prod.fst h₁)
    · exact Or.inr ⟨mem_akeys.mpr ⟨v', h₁⟩, h₂⟩
  · rintro (rfl | ⟨h₁, h₂⟩)
    · exact mem_akeys.mpr ⟨v, mem_ainsert.mpr (Or.inl rfl)⟩
    · rcases mem_akeys.mp h₁ with ⟨v', hv'⟩
      exact mem_akeys.mpr ⟨v', mem_ainsert.mpr (Or.inr ⟨hv', h₂⟩)⟩

theorem aerase_of_not_mem {k : α} {l : List (α × β)} (h : k ∉ akeys l) :
    aerase k l = l := by
  induction l with
  | nil => simp [aerase]
  | cons e t ih =>
    simp only [akeys, List.map_cons, List.mem_cons] at h
    push_neg at h
    have h₁ : ¬ e.1 = k := fun hc => h.1 hc.symm
    simp only [aerase, h₁, if_false]
    rw [ih (by simpa [akeys] using h.2)]

end AssocLemmas

/-! ### Claim C8 — `MountedFS.Enable` interface behavior -/

/-- **C8**: `Enable` is idempotent at the interface.  On a mountpath
already available it returns `(false, true)` and changes neither map; on
a disabled one it returns `(true, true)` and moves exactly that
mountpath from the disabled to the available map; on an unregistered
path it returns `(false, false)` and changes nothing. -/
theorem enable_interface_spec (w : FsWorld) (mfs : MountedFS) (mpath : String) :
    ((alookup (w.clean mpath) mfs.available).isSome →
        MountedFS.Enable w mfs mpath = ((false, true), mfs)) ∧
    (∀ mp, alookup (w.clean mpath) mfs.available = none →
        alookup (w.clean mpath) mfs.disabled = some mp →
        (MountedFS.Enable w mfs mpath).1 = (true, true) ∧
        alookup (w.clean mpath) (MountedFS.Enable w mfs mpath).2.available = some mp ∧
        alookup (w.clean mpath) (MountedFS.Enable w mfs mpath).2.disabled = none ∧
        (∀ k, k ≠ w.clean mpath →
           alookup k (MountedFS.Enable w mfs mpath).2.available = alookup k mfs.available ∧
           alookup k (MountedFS.Enable w mfs mpath).2.disabled = alookup k mfs.disabled)) ∧
    (alookup (w.clean mpath) mfs.available = none →
        alookup (w.clean mpath) mfs.disabled = none →
        MountedFS.Enable w mfs mpath = ((false, false), mfs)) := by
  refine ⟨?_, ?_, ?_⟩
  · intro h
    simp [MountedFS.Enable, h]
  · intro mp hav hdis
    have hE : MountedFS.Enable w mfs mpath =
        ((true, true),
         { mfs with
             available := ainsert (w.clean mpath) mp mfs.available,
             disabled := aerase (w.clean mpath) mfs.disabled }) := by
      simp [MountedFS.Enable, hav, hdis]
    rw [hE]
    refine ⟨rfl, alookup_ainsert_self mfs.available, alookup_aerase_self mfs.disabled, ?_⟩
    intro k hk
    exact ⟨alookup_ainsert_ne mfs.available hk, alookup_aerase_ne mfs.disabled hk⟩
  · intro hav hdis
    simp [MountedFS.Enable, hav, hdis]

/-- Witness for C8: all three interface cases at concrete states. -/
theorem enable_interface_spec_witness :
    (MountedFS.Enable w0 mfsAvailA "a" = ((false, true), mfsAvailA)) ∧
    ((MountedFS.Enable w0 mfsDisA "a").1 = (true, true)) ∧
    (MountedFS.Enable w0 NewMountedFS "a" = ((false, false), NewMountedFS)) :=
  ⟨(enable_interface_spec w0 mfsAvailA "a").1 (by decide),
   ((enable_interface_spec w0 mfsDisA "a").2.1 mpA (by decide) (by decide)).1,
   (enable_interface_spec w0 NewMountedFS "a").2.2 (by decide) (by decide)⟩

/-! ### Claim C7 — `MountedFS.Remove` and target unregistration -/

/-- **C7**: `Remove` searches the available and then the disabled map
and fails exactly when the cleaned path is registered in neither; when
the removed mountpath was the last available one the call logs the
"removed the last available mountpath" error yet succeeds, and the
coordinator's `removeMountpath` then unregisters the target. -/
theorem remove_unregister_spec (w : FsWorld) (mfs : MountedFS) (mpath : String) :
    ((∃ e, MountedFS.Remove w mfs mpath = .error e) ↔
        (w.clean mpath ∉ akeys mfs.available ∧ w.clean mpath ∉ akeys mfs.disabled)) ∧
    (∀ mp, alookup (w.clean mpath) mfs.available = some mp →
        mfs.available.length = 1 →
        ∃ r, MountedFS.Remove w mfs mpath = .ok r ∧
             r.loggedLastRemoved = true ∧
             (removeMountpath w mfs mpath).failed = false ∧
             (removeMountpath w mfs mpath).unregistered = true) := by
  constructor
  · constructor
    · rintro ⟨e, he⟩
      simp only [MountedFS.Remove] at he
      rcases hav : alookup (w.clean mpath) mfs.available with _ | mp
      · rcases hdis : alookup (w.clean mpath) mfs.disabled with _ | mp
        · exact ⟨alookup_eq_none.mp hav, alookup_eq_none.mp hdis⟩
        · rw [hav, hdis] at he
          simp at he
      · rw [hav] at he
        simp at he
    · rintro ⟨hav, hdis⟩
      rw [← alookup_eq_none (β := MountpathInfo)] at hav hdis
      exact ⟨"tried to remove non-existing mountpath",
             by simp [MountedFS.Remove, hav, hdis]⟩
  · intro mp hav hlen
    obtain ⟨e, hl⟩ := List.length_eq_one.mp hlen
    obtain ⟨k, v⟩ := e
    have hk : k = w.clean mpath ∧ v = mp := by
      rw [hl] at hav
      by_cases hkc : k = w.clean mpath
      · simp only [alookup, hkc, if_true, Option.some.injEq] at hav
        exact ⟨hkc, hav⟩
      · simp [alookup, hkc] at hav
    obtain ⟨rfl, rfl⟩ := hk
    have haer : aerase (w.clean mpath) mfs.available = [] := by
      rw [hl]
      simp [aerase]
    have hE : MountedFS.Remove w mfs mpath =
        .ok { mfs := { mfs with available := [], fsIDs := aerase v.fsid mfs.fsIDs },
              loggedLastRemoved := true } := by
      simp [MountedFS.Remove, hav, haer]
    refine ⟨_, hE, rfl, ?_, ?_⟩
    · simp [removeMountpath, hE]
    · simp [removeMountpath, hE]

/-- Witness for C7: removing an unregistered path fails; removing the
single available mountpath succeeds, logs, and unregisters the target. -/
theorem remove_unregister_spec_witness :
    (∃ e, MountedFS.Remove w0 NewMountedFS "zz" = .error e) ∧
    (∃ r, MountedFS.Remove w0 mfsAvailA "a" = .ok r ∧
          r.loggedLastRemoved = true ∧
          (removeMountpath w0 mfsAvailA "a").failed = false ∧
          (removeMountpath w0 mfsAvailA "a").unregistered = true) :=
  ⟨(remove_unregister_spec w0 NewMountedFS "zz").1.mpr ⟨by decide, by decide⟩,
   (remove_unregister_spec w0 mfsAvailA "a").2 mpA (by decide) (by decide)⟩

/-! ### Claim C9 — `XactBase.Abort` is idempotent and terminal -/

/-- **C9**: over any sequence of `Abort` calls on a fresh xaction the
abort channel is closed at most once (so the double-close panic branch
is unreachable), once aborted every further `Abort` is a no-op, and a
successful abort stores a non-zero end-time, after which the xaction is
`Finished`. -/
theorem abort_idempotent_spec (nows : List Int) (hpos : ∀ n ∈ nows, 0 < n) :
    (abortCalls NewXactBase nows).abrtCloseCount ≤ 1 ∧
    ((abortCalls NewXactBase nows).aborted = true →
       ∀ m, (abortCalls NewXactBase nows).Abort m = abortCalls NewXactBase nows) ∧
    (nows ≠ [] →
       (abortCalls NewXactBase nows).abrtCloseCount = 1 ∧
       (abortCalls NewXactBase nows).Finished = true) := by
  have habort : ∀ (y : XactBase) (m : Int), y.aborted = true → y.Abort m = y := by
    intro y m hy
    simp [XactBase.Abort, hy]
  have hcalls : ∀ (l : List Int) (y : XactBase), y.aborted = true → abortCalls y l = y := by
    intro l
    induction l with
    | nil => intro y hy; rfl
    | cons n rest ih =>
      intro y hy
      simp only [abortCalls, habort y n hy]
      exact ih y hy
  match nows, hpos with
  | [], _ => exact ⟨by decide, fun h m => habort _ m h, fun h => absurd rfl h⟩
  | n :: rest, hpos =>
    have hn : 0 < n := hpos n (List.mem_cons_self n rest)
    have hstep : NewXactBase.Abort n =
        { eutime := n, aborted := true, abrtCloseCount := 1 } := by
      simp [XactBase.Abort, NewXactBase]
    have hall : abortCalls NewXactBase (n :: rest) =
        { eutime := n, aborted := true, abrtCloseCount := 1 } := by
      simp only [abortCalls, hstep]
      exact hcalls rest _ rfl
    refine ⟨by rw [hall], fun h m => habort _ m h, fun _ => ⟨by rw [hall], ?_⟩⟩
    rw [hall]
    simp [XactBase.Finished]
    omega

/-- Witness for C9: two aborts in a row close the channel once and
finish the xaction. -/
theorem abort_idempotent_spec_witness :
    (abortCalls NewXactBase [5, 7]).abrtCloseCount = 1 ∧
    (abortCalls NewXactBase [5, 7]).Finished = true :=
  (abort_idempotent_spec [5, 7] (by decide)).2.2 (by decide)

/-! ### Claim C2 — `ClearRequests` drains, `EnableRequests` re-admits -/

/-- **C2**: when the Put xaction loop processes the `ActClearRequests`
control message, every request then pending on the request channel is
resolved with an error on its error channel (when one was supplied), the
channel is left empty and further requests are rejected; and after a
subsequent `EnableRequests` (which renews the finished xaction and
clears the reject marker) a newly enqueued request is never rejected but
appended to the request channel. -/
theorem clearRequests_drains_spec (x : XactPut) (old : Option XactPut) (req : ECRequest) :
    ((processControlMsg x .clearRequests).1.ecQueue = [] ∧
     (processControlMsg x .clearRequests).1.rejectReq = true ∧
     (∀ r ∈ x.ecQueue, ∀ ch, r.errCh = some ch →
        PutEvent.errorSent ch ∈ (processControlMsg x .clearRequests).2)) ∧
    ((dispatchDecodingRequest (enablePutRequests old) req).2.2 = false ∧
     (dispatchDecodingRequest (enablePutRequests old) req).1.ecQueue
        = (enablePutRequests old).ecQueue ++ [req]) := by
  constructor
  · refine ⟨rfl, rfl, ?_⟩
    intro r hr ch hch
    simp only [processControlMsg]
    refine List.mem_flatten.mpr ⟨[PutEvent.errorSent ch], ?_, List.mem_singleton.mpr rfl⟩
    refine List.mem_map.mpr ⟨r, hr, ?_⟩
    simp [abortECRequestWhenDisabled, hch]
  · have hrej : (enablePutRequests old).rejectReq = false := by
      rcases old with _ | x'
      · rfl
      · simp only [enablePutRequests, processControlMsg]
    constructor
    · simp [dispatchDecodingRequest, hrej]
    · simp [dispatchDecodingRequest, hrej]

/-- Witness for C2: a queue holding one request with error channel 3 is
drained with an error on channel 3; after renewal plus
`EnableRequests`, a new request is enqueued, not rejected. -/
theorem clearRequests_drains_spec_witness :
    (PutEvent.errorSent 3 ∈
       (processControlMsg
          { rejectReq := false,
            ecQueue := [{ action := .split, isCopy := false, errCh := some 3 }],
            finished := false } .clearRequests).2) ∧
    ((dispatchDecodingRequest
        (enablePutRequests (some { rejectReq := true, ecQueue := [], finished := true }))
        { action := .split, isCopy := false, errCh := none }).2.2 = false) :=
  ⟨((clearRequests_drains_spec
        { rejectReq := false,
          ecQueue := [{ action := .split, isCopy := false, errCh := some 3 }],
          finished := false }
        (some { rejectReq := true, ecQueue := [], finished := true })
        { action := .split, isCopy := false, errCh := none }).1.2.2
      { action := .split, isCopy := false, errCh := some 3 } (by decide) 3 (by decide)),
   (clearRequests_drains_spec
        { rejectReq := false,
          ecQueue := [{ action := .split, isCopy := false, errCh := some 3 }],
          finished := false }
        (some { rejectReq := true, ecQueue := [], finished := true })
        { action := .split, isCopy := false, errCh := none }).2.1⟩

/-! ### Claim C3 — `writerReceive` on an `Exists=false` response -/

/-- Counterexample for C3 as stated: on an `Exists=false` response the
code calls `writer.wg.Done()` BEFORE draining the body, so the claim's
"signals the slice's wait-group after the draining completes" is false;
the body is drained and the not-found error is returned, but the signal
precedes the drain. -/
theorem writerReceive_order_counterexample :
    (writerReceive { written := 0, cksum := none, version := "" } false
        { cksumType := "xxhash", cksumValue := "abc", version := "v1" } 5 none).2.2
      = [.sigDone, .drainBody] ∧
    signalsDoneAfterDrain
      (writerReceive { written := 0, cksum := none, version := "" } false
        { cksumType := "xxhash", cksumValue := "abc", version := "v1" } 5 none).2.2
      = false ∧
    WRecvEvent.drainBody ∈
      (writerReceive { written := 0, cksum := none, version := "" } false
        { cksumType := "xxhash", cksumValue := "abc", version := "v1" } 5 none).2.2 := by
  decide

/-- **C3 (amended)**: on an `Exists=false` response `writerReceive`
signals the slice's wait-group and then drains the response body (the
signal comes before the drain, not after), writes no data into the
registered writer (the writer record is unchanged), and returns the
not-found error. -/
theorem writerReceive_notfound_spec (writer : SliceWriter) (objAttrs : ObjectAttrs)
    (bodyLen : Int) (copyErr : Option String) :
    (writerReceive writer false objAttrs bodyLen copyErr).1 = some .notFound ∧
    (writerReceive writer false objAttrs bodyLen copyErr).2.1 = writer ∧
    WRecvEvent.drainBody ∈ (writerReceive writer false objAttrs bodyLen copyErr).2.2 ∧
    signalsDoneBeforeDrain (writerReceive writer false objAttrs bodyLen copyErr).2.2
      = true := by
  refine ⟨rfl, rfl, ?_, rfl⟩
  simp [writerReceive]

/-! ### Claim C1 — EC target-count gating -/

/-- Counterexample for C1 as stated: for a small object (below
`ec.obj_size_limit`, hence `IsECCopy`), `EncodeObject` proceeds even
though the cached target count is below
`DataSlices + ParitySlices + 1` — it does not return
`InsufficientTargets` (source comment: "encoding small object might
require just 1 additional target"). -/
theorem encode_gating_counterexample :
    (({ targetCnt := 1, oos := false, fileSpecPerm := none,
        loadErr := none } : ECMgrEnv).targetCnt <
       ({ enabled := true, objSizeLimit := 100, dataSlices := 1,
          paritySlices := 1 } : ECConf).RequiredEncodeTargets) ∧
    EncodeObject
        { targetCnt := 1, oos := false, fileSpecPerm := none, loadErr := none }
        { ec := { enabled := true, objSizeLimit := 100, dataSlices := 1, paritySlices := 1 },
          size := 10, fqn := "x", mpathOk := true }
      ≠ .err .insufficientTargets := by
  decide

/-- **C1 (amended)**: for an EC-enabled bucket, whenever the object is
NOT small enough to be replicated (`IsECCopy` false) and the cached
target count is below `DataSlices + ParitySlices + 1`, `EncodeObject`
returns `InsufficientTargets` (dispatching nothing, so the LOM on disk
is unchanged); and whenever the target count is below `DataSlices + 1`,
`RestoreObject` returns `InsufficientTargets`. -/
theorem ec_target_gating_spec (env : ECMgrEnv) (lom : ECLom)
    (hec : lom.ec.enabled = true) :
    (IsECCopy lom.size lom.ec = false →
       env.targetCnt < lom.ec.RequiredEncodeTargets →
       EncodeObject env lom = .err .insufficientTargets) ∧
    (env.targetCnt < lom.ec.RequiredRestoreTargets →
       RestoreObject env lom = .err .insufficientTargets) := by
  constructor
  · intro hcopy hcnt
    simp [EncodeObject, hec, hcopy, hcnt]
  · intro hcnt
    simp [RestoreObject, hec, hcnt]

/-- Witness for C1 (amended): a 200-byte object above a 100-byte
`obj_size_limit` in a 1-target cluster fails both encode and restore
with `InsufficientTargets`. -/
theorem ec_target_gating_spec_witness :
    EncodeObject
        { targetCnt := 1, oos := false, fileSpecPerm := none, loadErr := none }
        { ec := { enabled := true, objSizeLimit := 100, dataSlices := 1, paritySlices := 1 },
          size := 200, fqn := "x", mpathOk := true }
      = .err .insufficientTargets ∧
    RestoreObject
        { targetCnt := 1, oos := false, fileSpecPerm := none, loadErr := none }
        { ec := { enabled := true, objSizeLimit := 100, dataSlices := 1, paritySlices := 1 },
          size := 200, fqn := "x", mpathOk := true }
      = .err .insufficientTargets :=
  ⟨(ec_target_gating_spec
      { targetCnt := 1, oos := false, fileSpecPerm := none, loadErr := none }
      { ec := { enabled := true, objSizeLimit := 100, dataSlices := 1, paritySlices := 1 },
        size := 200, fqn := "x", mpathOk := true } rfl).1 (by decide) (by decide),
   (ec_target_gating_spec
      { targetCnt := 1, oos := false, fileSpecPerm := none, loadErr := none }
      { ec := { enabled := true, objSizeLimit := 100, dataSlices := 1, paritySlices := 1 },
        size := 200, fqn := "x", mpathOk := true } rfl).2 (by decide)⟩

/-! ### Claim C5 — `XactDemandBase.Timeout` -/

/-- Counterexample for C5 as stated: in the call sequence `IncPending;
Renew; Timeout; DecPending` the final `Timeout()` returns `false` even
though the pending counter is 0 and `Renew()` has not been called since
the previous `Timeout()` check — that earlier check saw pending work,
returned early and did not consume the renewal flag, so the flag (still
set from before that check) makes the final check return `false`. -/
theorem demand_timeout_counterexample :
    (demandRun [.incPendingOp, .renewOp, .timeoutOp, .decPendingOp]).Timeout.1 = false ∧
    (demandRun [.incPendingOp, .renewOp, .timeoutOp, .decPendingOp]).pending = 0 ∧
    specNoRenewSinceLastCheck [.incPendingOp, .renewOp, .timeoutOp, .decPendingOp]
      = true := by
  decide

/-- **C5 (amended)**: for every demand xaction (with a non-negative
pending counter), `Timeout()` returns true if and only if the
pending-work counter equals 0 and `Renew()` has not been called since
the previous `Timeout()` check that observed no pending work (only such
a check consumes the renewal flag; before any such check, "not since"
means "never"). -/
theorem demand_timeout_iff_spec (ops : List DemandOp)
    (hp : 0 ≤ (demandRun ops).pending) :
    ((demandRun ops).Timeout.1 = true ↔
       ((demandRun ops).pending = 0 ∧ specNoRenewSinceConsumingCheck ops = true)) := by
  have hfst : ∀ (l : List DemandOp) (s : XactDemandBase) (f : Bool),
      (l.foldl consumingStep (s, f)).1 = l.foldl applyDemandOp s := by
    intro l
    induction l with
    | nil => intro s f; rfl
    | cons op rest ih =>
      intro s f
      have hstep : (consumingStep (s, f) op).1 = applyDemandOp s op := by
        cases op <;> rfl
      simp only [List.foldl_cons]
      calc (List.foldl consumingStep (consumingStep (s, f) op) rest).1
          = (List.foldl consumingStep
              ((consumingStep (s, f) op).1, (consumingStep (s, f) op).2) rest).1 := rfl
        _ = List.foldl applyDemandOp (consumingStep (s, f) op).1 rest := ih _ _
        _ = List.foldl applyDemandOp (applyDemandOp s op) rest := by rw [hstep]
  have hinv : ∀ (l : List DemandOp) (s : XactDemandBase) (f : Bool),
      s.renew ≤ 1 → (s.renew ≤ 0 ↔ f = true) →
      (l.foldl consumingStep (s, f)).1.renew ≤ 1 ∧
      ((l.foldl consumingStep (s, f)).1.renew ≤ 0 ↔
        (l.foldl consumingStep (s, f)).2 = true) := by
    intro l
    induction l with
    | nil => intro s f h1 h2; exact ⟨h1, h2⟩
    | cons op rest ih =>
      intro s f h1 h2
      simp only [List.foldl_cons]
      have hih := ih (consumingStep (s, f) op).1 (consumingStep (s, f) op).2
      cases op with
      | renewOp =>
        exact hih (by simp [consumingStep, XactDemandBase.Renew])
                  (by simp [consumingStep, XactDemandBase.Renew])
      | incPendingOp =>
        exact hih h1 (by simpa [consumingStep, XactDemandBase.IncPending] using h2)
      | decPendingOp =>
        exact hih h1 (by simpa [consumingStep, XactDemandBase.DecPending] using h2)
      | timeoutOp =>
        by_cases hpend : s.pending > 0
        · refine hih ?_ ?_
          · simpa [consumingStep, XactDemandBase.Timeout, hpend] using h1
          · simpa [consumingStep, XactDemandBase.Timeout, hpend] using h2
        · refine hih ?_ ?_
          · simp only [consumingStep, XactDemandBase.Timeout, hpend, if_false]
            omega
          · simp only [consumingStep, XactDemandBase.Timeout, hpend, if_false]
            have hle : s.renew - 1 ≤ 0 := by omega
            simp [hle]
  have h0 := hinv ops NewXactDemandBase true (by simp [NewXactDemandBase])
      (by simp [NewXactDemandBase])
  rw [hfst ops NewXactDemandBase true] at h0
  have hrun : (ops.foldl consumingStep (NewXactDemandBase, true)).2
      = specNoRenewSinceConsumingCheck ops := rfl
  rw [hrun] at h0
  have hdr : demandRun ops = ops.foldl applyDemandOp NewXactDemandBase := rfl
  rw [← hdr] at h0
  by_cases hpend : (demandRun ops).pending > 0
  · have hbool : (demandRun ops).Timeout.1 = false := by
      simp [XactDemandBase.Timeout, hpend]
    rw [hbool]
    simp only [Bool.false_eq_true, false_iff]
    rintro ⟨hz, _⟩
    omega
  · have hz : (demandRun ops).pending = 0 := by omega
    have hbool : (demandRun ops).Timeout.1
        = decide ((demandRun ops).renew - 1 < 0) := by
      simp [XactDemandBase.Timeout, hpend]
    rw [hbool, hz]
    simp only [true_and, decide_eq_true_eq]
    constructor
    · intro h
      exact h0.2.mp (by omega)
    · intro h
      have := h0.2.mpr h
      omega

/-- Witness for C5 (amended): after `Renew; Timeout; Timeout` the third
check times out — no renewal since the last consuming check. -/
theorem demand_timeout_iff_spec_witness :
    0 ≤ (demandRun [.renewOp, .timeoutOp, .timeoutOp]).pending ∧
    ((demandRun [.renewOp, .timeoutOp, .timeoutOp]).Timeout.1 = true ↔
       ((demandRun [.renewOp, .timeoutOp, .timeoutOp]).pending = 0 ∧
        specNoRenewSinceConsumingCheck [.renewOp, .timeoutOp, .timeoutOp] = true)) :=
  ⟨by decide, demand_timeout_iff_spec [.renewOp, .timeoutOp, .timeoutOp] (by decide)⟩

/-! ### Claim C6 — cluster-map gating of the per-bucket EC xactions -/

/-- A stop never produces an unfinished xaction. -/
theorem stopECXact_finished {o : Option ECXact} {x : ECXact}
    (h : stopECXact o = some x) : x.finished = true := by
  rcases o with _ | y
  · simp [stopECXact] at h
  · by_cases hy : y.finished = true
    · simp only [stopECXact, hy, if_true, Option.some.injEq] at h
      rw [← h]
      exact hy
    · have he : stopECXact (some y) = some { finished := true } := by
        simp [stopECXact, hy]
      rw [he, Option.some.injEq] at h
      rw [← h]

/-- One bucket-gating iteration never changes the Respond xaction of any
bucket. -/
theorem smapGateBucket_req (tc : Int) (xs : List (String × BckXacts))
    (e : String × ECConf) (b : String) :
    (alookup b (smapGateBucket tc xs e)).bind (fun v => v.req)
      = (alookup b xs).bind (fun v => v.req) := by
  by_cases hb : b = e.1
  · subst hb
    unfold smapGateBucket
    rw [alookup_ainsert_self]
    by_cases h₁ : tc < e.2.RequiredEncodeTargets <;>
      by_cases h₂ : tc < e.2.RequiredRestoreTargets <;>
        rcases halk : alookup e.1 xs with _ | v <;>
          simp [h₁, h₂, halk, BckXacts.StopGet, BckXacts.StopPut]
  · unfold smapGateBucket
    rw [alookup_ainsert_ne _ hb]

/-- After the gating iteration of a bucket whose encode requirement
exceeds the target count, the bucket's published Put xaction (if any) is
finished. -/
theorem smapGateBucket_put_self (tc : Int) (xs : List (String × BckXacts))
    (e : String × ECConf) (henc : tc < e.2.RequiredEncodeTargets) :
    ∀ x, (alookup e.1 (smapGateBucket tc xs e)).bind (fun v => v.put) = some x →
      x.finished = true := by
  intro x hx
  unfold smapGateBucket at hx
  rw [alookup_ainsert_self] at hx
  by_cases h₂ : tc < e.2.RequiredRestoreTargets <;>
    simp only [henc, if_true, h₂, if_false, BckXacts.StopGet, BckXacts.StopPut,
      Option.some_bind] at hx <;>
    exact stopECXact_finished hx

/-- After the gating iteration of a bucket whose restore requirement
exceeds the target count, the bucket's published Get xaction (if any) is
finished. -/
theorem smapGateBucket_get_self (tc : Int) (xs : List (String × BckXacts))
    (e : String × ECConf) (hres : tc < e.2.RequiredRestoreTargets) :
    ∀ x, (alookup e.1 (smapGateBucket tc xs e)).bind (fun v => v.get) = some x →
      x.finished = true := by
  intro x hx
  unfold smapGateBucket at hx
  rw [alookup_ainsert_self] at hx
  by_cases h₁ : tc < e.2.RequiredEncodeTargets <;>
    simp only [hres, if_true, h₁, if_false, BckXacts.StopGet, BckXacts.StopPut,
      Option.some_bind] at hx <;>
    exact stopECXact_finished hx

/-- The whole per-bucket loop never changes the Respond xaction of any
bucket. -/
theorem foldl_gate_req (l : List (String × ECConf)) (tc : Int)
    (xs : List (String × BckXacts)) (b : String) :
    (alookup b (l.foldl (smapGateBucket tc) xs)).bind (fun v => v.req)
      = (alookup b xs).bind (fun v => v.req) := by
  induction l generalizing xs with
  | nil => rfl
  | cons e rest ih =>
    simp only [List.foldl_cons]
    rw [ih (smapGateBucket tc xs e)]
    exact smapGateBucket_req tc xs e b

/-- Buckets outside the remaining bucket-metadata list are untouched by
the rest of the loop. -/
theorem foldl_gate_notmem (l : List (String × ECConf)) (tc : Int)
    (xs : List (String × BckXacts)) (b : String) (hb : b ∉ akeys l) :
    alookup b (l.foldl (smapGateBucket tc) xs) = alookup b xs := by
  induction l generalizing xs with
  | nil => rfl
  | cons e rest ih =>
    simp only [akeys, List.map_cons, List.mem_cons] at hb
    push_neg at hb
    simp only [List.foldl_cons]
    rw [ih (smapGateBucket tc xs e) (by simpa [akeys] using hb.2)]
    unfold smapGateBucket
    exact alookup_ainsert_ne _ hb.1

/-- After gating every bucket, a bucket of the metadata whose encode
requirement exceeds the target count has a finished published Put
xaction (if any). -/
theorem foldl_gate_put_stopped (l : List (String × ECConf)) (tc : Int)
    (xs : List (String × BckXacts)) (b : String) (conf : ECConf)
    (hnd : (akeys l).Nodup) (hmem : (b, conf) ∈ l)
    (henc : tc < conf.RequiredEncodeTargets) :
    ∀ x, (alookup b (l.foldl (smapGateBucket tc) xs)).bind (fun v => v.put) = some x →
      x.finished = true := by
  induction l generalizing xs with
  | nil => simp at hmem
  | cons e rest ih =>
    simp only [akeys, List.map_cons, List.nodup_cons] at hnd
    rcases List.mem_cons.mp hmem with he | hrest
    · intro x hx
      have heb : e.1 = b := by rw [← he]
      have hec : e.2 = conf := by rw [← he]
      have hb : b ∉ akeys rest := by
        rw [← heb]
        simpa [akeys] using hnd.1
      simp only [List.foldl_cons] at hx
      rw [foldl_gate_notmem rest tc _ b hb, ← heb] at hx
      exact smapGateBucket_put_self tc xs e (by rw [hec]; exact henc) x hx
    · intro x hx
      simp only [List.foldl_cons] at hx
      exact ih _ (by simpa [akeys] using hnd.2) hrest x hx

/-- After gating every bucket, a bucket of the metadata whose restore
requirement exceeds the target count has a finished published Get
xaction (if any). -/
theorem foldl_gate_get_stopped (l : List (String × ECConf)) (tc : Int)
    (xs : List (String × BckXacts)) (b : String) (conf : ECConf)
    (hnd : (akeys l).Nodup) (hmem : (b, conf) ∈ l)
    (hres : tc < conf.RequiredRestoreTargets) :
    ∀ x, (alookup b (l.foldl (smapGateBucket tc) xs)).bind (fun v => v.get) = some x →
      x.finished = true := by
  induction l generalizing xs with
  | nil => simp at hmem
  | cons e rest ih =>
    simp only [akeys, List.map_cons, List.nodup_cons] at hnd
    rcases List.mem_cons.mp hmem with he | hrest
    · intro x hx
      have heb : e.1 = b := by rw [← he]
      have hec : e.2 = conf := by rw [← he]
      have hb : b ∉ akeys rest := by
        rw [← heb]
        simpa [akeys] using hnd.1
      simp only [List.foldl_cons] at hx
      rw [foldl_gate_notmem rest tc _ b hb, ← heb] at hx
      exact smapGateBucket_get_self tc xs e (by rw [hec]; exact hres) x hx
    · intro x hx
      simp only [List.foldl_cons] at hx
      exact ih _ (by simpa [akeys] using hnd.2) hrest x hx

/-- **C6**: on a cluster-map version increase, for every EC-enabled
bucket of the bucket metadata the coordinator stops the bucket's Put
xaction when the new target count is below the encode requirement and
its Get xaction when below the restore requirement (whatever the
published xaction is afterwards, it is finished); and neither the
version-change handling nor the channel-closed shutdown ever stops a
bucket's Respond xaction (it is preserved exactly). -/
theorem smap_gating_spec (mgr : ECMgrState) (newSmapVersion newTargetCnt : Int)
    (bck : String) :
    ((mgr.smapVersion < newSmapVersion → (akeys mgr.bckMD).Nodup →
       ∀ conf, (bck, conf) ∈ mgr.bckMD → conf.enabled = true →
         ((newTargetCnt < conf.RequiredEncodeTargets →
             ∀ x, putXactOf (ListenSmapChangedStep mgr newSmapVersion newTargetCnt) bck
                    = some x → x.finished = true) ∧
          (newTargetCnt < conf.RequiredRestoreTargets →
             ∀ x, getXactOf (ListenSmapChangedStep mgr newSmapVersion newTargetCnt) bck
                    = some x → x.finished = true))) ∧
     reqXactOf (ListenSmapChangedStep mgr newSmapVersion newTargetCnt) bck
       = reqXactOf mgr bck ∧
     reqXactOf (ListenSmapClosed mgr) bck = reqXactOf mgr bck) := by
  have hstep : mgr.smapVersion < newSmapVersion →
      (ListenSmapChangedStep mgr newSmapVersion newTargetCnt).xacts
        = mgr.bckMD.foldl (smapGateBucket newTargetCnt) mgr.xacts := by
    intro hv
    have : ¬ newSmapVersion ≤ mgr.smapVersion := by omega
    simp [ListenSmapChangedStep, this]
  refine ⟨?_, ?_, ?_⟩
  · intro hv hnd conf hmem henab
    constructor
    · intro henc x hx
      rw [putXactOf, hstep hv] at hx
      exact foldl_gate_put_stopped mgr.bckMD newTargetCnt mgr.xacts bck conf
        hnd hmem henc x hx
    · intro hres x hx
      rw [getXactOf, hstep hv] at hx
      exact foldl_gate_get_stopped mgr.bckMD newTargetCnt mgr.xacts bck conf
        hnd hmem hres x hx
  · by_cases hv : newSmapVersion ≤ mgr.smapVersion
    · simp [ListenSmapChangedStep, hv, reqXactOf]
    · rw [reqXactOf, reqXactOf, hstep (by omega)]
      exact foldl_gate_req mgr.bckMD newTargetCnt mgr.xacts bck
  · rw [reqXactOf, reqXactOf]
    simp only [ListenSmapClosed]
    induction mgr.xacts with
    | nil => rfl
    | cons e rest ih =>
      by_cases hb : e.1 = bck
      · simp [alookup, hb, BckXacts.StopGet, BckXacts.StopPut]
      · simp only [List.map_cons, alookup, hb, if_false]
        exact ih

/-- Witness for C6: shrinking the 5-target cluster of `mgr0` to 2
targets at version 2 finishes bucket `"b"`'s Put and Get xactions but
leaves its Respond xaction untouched. -/
theorem smap_gating_spec_witness :
    (({ finished := true } : ECXact).finished = true) ∧
    reqXactOf (ListenSmapChangedStep mgr0 2 2) "b" = reqXactOf mgr0 "b" :=
  ⟨(((smap_gating_spec mgr0 2 2 "b").1 (by decide) (by decide) conf22 (by decide)
        (by decide)).1 (by decide)) { finished := true } (by decide),
   (smap_gating_spec mgr0 2 2 "b").2.1⟩

/-! ### Claim C4 — mirror copy-destination selection -/

/-- A candidate not blocked by the copy loop hosts none of the copies. -/
theorem copyBlocks_eq_false {env : MirrorEnv} {j : String} {l : List String}
    (h : copyBlocks env j l = false) :
    ∀ c ∈ l, env.fqn2mpath c ≠ some j := by
  induction l with
  | nil => simp
  | cons c t ih =>
    intro c' hc'
    rcases hp : env.fqn2mpath c with _ | p
    · rw [copyBlocks, hp] at h
      simp at h
    · rw [copyBlocks, hp] at h
      by_cases hjp : j = p
      · simp [hjp] at h
      · simp only [hjp, if_false] at h
        rcases List.mem_cons.mp hc' with rfl | hmem
        · rw [hp]
          intro hc
          exact hjp (Option.some.inj hc).symm
        · exact ih h c' hmem

/-- A copy residing on the candidate blocks it. -/
theorem copyBlocks_of_mem {env : MirrorEnv} {j : String} {l : List String} {c : String}
    (hc : c ∈ l) (hj : env.fqn2mpath c = some j) :
    copyBlocks env j l = true := by
  induction l with
  | nil => simp at hc
  | cons c' t ih =>
    rcases List.mem_cons.mp hc with rfl | hmem
    · rw [copyBlocks, hj]
      simp
    · rw [copyBlocks]
      rcases hp : env.fqn2mpath c' with _ | p
      · rfl
      · by_cases hjp : j = p
        · simp [hjp]
        · simp only [hjp, if_false]
          exact ih hmem

/-- The accumulator invariant of the `findLeastUtilized` loop: the best
candidate so far is a surviving candidate holding the recorded (minimal,
non-increasing) utilization; the selected candidate comes from the list
(or was already selected), and the final utilization is a lower bound of
every surviving candidate's utilization. -/
theorem fluLoop_spec (env : MirrorEnv) (lom : MirrorLOM) :
    ∀ (mps : List String) (out : Option String) (util : Int),
    ((out = none ∧ util = 101) ∨
      (∃ j, out = some j ∧ util = env.utilOf j ∧ mirrorSurvivor env lom j)) →
    (((fluLoop env lom mps out util).1 = none ∧ (fluLoop env lom mps out util).2 = 101) ∨
      (∃ j, (fluLoop env lom mps out util).1 = some j ∧
            (fluLoop env lom mps out util).2 = env.utilOf j ∧
            mirrorSurvivor env lom j)) ∧
    (∀ j, (fluLoop env lom mps out util).1 = some j → j ∈ mps ∨ out = some j) ∧
    (fluLoop env lom mps out util).2 ≤ util ∧
    (∀ k ∈ mps, mirrorSurvivor env lom k →
       (fluLoop env lom mps out util).2 ≤ env.utilOf k) := by
  intro mps
  induction mps with
  | nil =>
    intro out util hinv
    exact ⟨hinv, fun j hj => Or.inr hj, le_refl _, by simp⟩
  | cons j rest ih =>
    intro out util hinv
    by_cases hprim : j = lom.primaryMpath
    · have hstep : fluLoop env lom (j :: rest) out util = fluLoop env lom rest out util := by
        simp [fluLoop, hprim]
      rw [hstep]
      obtain ⟨c1, c2, c3, c4⟩ := ih out util hinv
      refine ⟨c1, ?_, c3, ?_⟩
      · intro j' hj'
        exact (c2 j' hj').imp (List.mem_cons_of_mem j) id
      · intro k hk hks
        rcases List.mem_cons.mp hk with rfl | hmem
        · exact absurd hprim hks.1
        · exact c4 k hmem hks
    · by_cases hcb : lom.HasCopies ∧ copyBlocks env j lom.copyFQN
      · have hstep : fluLoop env lom (j :: rest) out util
            = fluLoop env lom rest out util := by
          simp [fluLoop, hprim, hcb]
        rw [hstep]
        obtain ⟨c1, c2, c3, c4⟩ := ih out util hinv
        refine ⟨c1, ?_, c3, ?_⟩
        · intro j' hj'
          exact (c2 j' hj').imp (List.mem_cons_of_mem j) id
        · intro k hk hks
          rcases List.mem_cons.mp hk with rfl | hmem
          · exact absurd hcb hks.2
          · exact c4 k hmem hks
      · have hsurv : mirrorSurvivor env lom j := ⟨hprim, hcb⟩
        by_cases hu : env.utilOf j < util
        · have hstep : fluLoop env lom (j :: rest) out util
              = fluLoop env lom rest (some j) (env.utilOf j) := by
            simp [fluLoop, hprim, hcb, hu]
          rw [hstep]
          obtain ⟨c1, c2, c3, c4⟩ :=
            ih (some j) (env.utilOf j) (Or.inr ⟨j, rfl, rfl, hsurv⟩)
          refine ⟨c1, ?_, le_trans c3 (le_of_lt hu), ?_⟩
          · intro j' hj'
            rcases c2 j' hj' with hmem | hout
            · exact Or.inl (List.mem_cons_of_mem j hmem)
            · exact Or.inl (by rw [← Option.some.inj hout]; exact List.mem_cons_self j rest)
          · intro k hk hks
            rcases List.mem_cons.mp hk with rfl | hmem
            · exact c3
            · exact c4 k hmem hks
        · have hstep : fluLoop env lom (j :: rest) out util
              = fluLoop env lom rest out util := by
            simp [fluLoop, hprim, hcb, hu]
          rw [hstep]
          obtain ⟨c1, c2, c3, c4⟩ := ih out util hinv
          refine ⟨c1, ?_, c3, ?_⟩
          · intro j' hj'
            exact (c2 j' hj').imp (List.mem_cons_of_mem j) id
          · intro k hk hks
            rcases List.mem_cons.mp hk with rfl | hmem
            · exact le_trans c3 (not_lt.mp hu)
            · exact c4 k hmem hks

/-- **C4**: `findLeastUtilized` never returns the mountpath hosting the
primary replica nor a mountpath on which one of the LOM's copies
resides; among the surviving candidates (whose utilizations lie in
0..100, as the iostat contract provides) it returns one of lowest disk
utilization, and it returns one whenever a survivor exists; when no
candidate survives it returns `none` — which is not an error, merely no
copy for this PUT. -/
theorem findLeastUtilized_spec (env : MirrorEnv) (lom : MirrorLOM)
    (mpathers : List String) :
    (∀ j, findLeastUtilized env lom mpathers = some j →
        j ∈ mpathers ∧ j ≠ lom.primaryMpath ∧
        ∀ c ∈ lom.copyFQN, env.fqn2mpath c ≠ some j) ∧
    ((∀ m ∈ mpathers, env.utilOf m ≤ 100) →
        (∀ j k, findLeastUtilized env lom mpathers = some j →
           k ∈ mpathers → mirrorSurvivor env lom k →
           env.utilOf j ≤ env.utilOf k) ∧
        ((∃ k, k ∈ mpathers ∧ mirrorSurvivor env lom k) →
           findLeastUtilized env lom mpathers ≠ none)) ∧
    ((∀ k ∈ mpathers, ¬ mirrorSurvivor env lom k) →
        findLeastUtilized env lom mpathers = none) := by
  obtain ⟨c1, c2, c3, c4⟩ :=
    fluLoop_spec env lom mpathers none 101 (Or.inl ⟨rfl, rfl⟩)
  refine ⟨?_, ?_, ?_⟩
  · intro j hj
    rcases c1 with ⟨hnone, _⟩ | ⟨j', hj', hu', hs'⟩
    · rw [findLeastUtilized, hnone] at hj
      exact absurd hj (by simp)
    · rw [findLeastUtilized, hj'] at hj
      obtain rfl := Option.some.inj hj
      have hmem : j' ∈ mpathers := by
        rcases c2 j' hj' with hmem | hout
        · exact hmem
        · simp at hout
      refine ⟨hmem, hs'.1, ?_⟩
      intro c hc heq
      refine hs'.2 ⟨?_, copyBlocks_of_mem hc heq⟩
      simp [MirrorLOM.HasCopies, List.isEmpty_iff, List.ne_nil_of_mem hc]
  · intro hbound
    constructor
    · intro j k hj hk hks
      rcases c1 with ⟨hnone, _⟩ | ⟨j', hj', hu', hs'⟩
      · rw [findLeastUtilized, hnone] at hj
        exact absurd hj (by simp)
      · rw [findLeastUtilized, hj'] at hj
        obtain rfl := Option.some.inj hj
        rw [← hu']
        exact c4 k hk hks
    · rintro ⟨k, hk, hks⟩ hnone
      have hle : (fluLoop env lom mpathers none 101).2 ≤ env.utilOf k := c4 k hk hks
      have hk100 : env.utilOf k ≤ 100 := hbound k hk
      rcases c1 with ⟨_, h101⟩ | ⟨j', hj', _, _⟩
      · omega
      · rw [findLeastUtilized, hj'] at hnone
        simp at hnone
  · intro hnosurv
    rcases hres : findLeastUtilized env lom mpathers with _ | j
    · rfl
    · rcases c1 with ⟨hnone, _⟩ | ⟨j', hj', hu', hs'⟩
      · rw [findLeastUtilized, hnone] at hres
        exact absurd hres (by simp)
      · rw [findLeastUtilized, hj'] at hres
        obtain rfl := Option.some.inj hres
        have hmem : j' ∈ mpathers := by
          rcases c2 j' hj' with hmem | hout
          · exact hmem
          · simp at hout
        exact absurd hs' (hnosurv j' hmem)

/-- Witness for C4: with primary on `"m0"` and a copy on `"m3"`, the
candidates `"m1"` (50% utilized) and `"m2"` (30%) both survive; the
function is defined (`≠ none`) and the selected `"m2"` avoids the
primary and the copies. -/
theorem findLeastUtilized_spec_witness :
    ("m2" ∈ ["m1", "m2"] ∧ "m2" ≠ lom4.primaryMpath ∧
       ∀ c ∈ lom4.copyFQN, env4.fqn2mpath c ≠ some "m2") ∧
    findLeastUtilized env4 lom4 ["m1", "m2"] ≠ none :=
  ⟨(findLeastUtilized_spec env4 lom4 ["m1", "m2"]).1 "m2" (by decide),
   ((findLeastUtilized_spec env4 lom4 ["m1", "m2"]).2.1 (by decide)).2
     ⟨"m1", by decide, by decide, by decide⟩⟩

/-! ### Claim C10 — disjointness and fsid uniqueness of the mountpath maps -/

theorem mem_akeys_iff_isSome {α β : Type} [DecidableEq α] {k : α} {l : List (α × β)} :
    k ∈ akeys l ↔ (alookup k l).isSome = true := by
  constructor
  · intro h
    rcases hl : alookup k l with _ | v
    · exact absurd (alookup_eq_none.mp hl) (by simp [h])
    · rfl
  · intro h
    rcases hl : alookup k l with _ | v
    · rw [hl] at h
      simp at h
    · exact mem_akeys_of_alookup hl

/-- The invariant holds of a fresh manager. -/
theorem mfsInv_init (w : FsWorld) : MfsInv w NewMountedFS := by
  simp [MfsInv, NewMountedFS, RegEntries, akeys]

/-- Transfer of the invariant when the registered entries only shrink or
move between the two maps and the fsid registry is untouched. -/
theorem mfsInv_of_sub {w : FsWorld} {mfs mfs' : MountedFS}
    (h : MfsInv w mfs)
    (hsub : ∀ e ∈ RegEntries mfs', e ∈ RegEntries mfs)
    (h1 : (akeys mfs'.available).Nodup)
    (h2 : (akeys mfs'.disabled).Nodup)
    (h3 : ∀ k ∈ akeys mfs'.available, k ∉ akeys mfs'.disabled)
    (hfs : mfs'.fsIDs = mfs.fsIDs)
    (hchk : mfs'.checkFsID = true) : MfsInv w mfs' := by
  obtain ⟨_, _, _, h4, h5, h6, _⟩ := h
  exact ⟨h1, h2, h3,
    fun e he => hfs ▸ h4 e (hsub e he),
    fun e he => h5 e (hsub e he),
    fun e₁ he₁ e₂ he₂ => h6 e₁ (hsub e₁ he₁) e₂ (hsub e₂ he₂),
    hchk⟩

/-- `Enable` preserves the invariant. -/
theorem mfsInv_enable (w : FsWorld) (mfs : MountedFS) (p : String)
    (h : MfsInv w mfs) : MfsInv w (applyMfsOp w mfs (.enable p)) := by
  obtain ⟨h1, h2, h3, h4, h5, h6, h7⟩ := h
  show MfsInv w (MountedFS.Enable w mfs p).2
  unfold MountedFS.Enable
  by_cases hav : (alookup (w.clean p) mfs.available).isSome = true
  · rw [if_pos hav]
    exact ⟨h1, h2, h3, h4, h5, h6, h7⟩
  · rw [if_neg hav]
    rcases hdis : alookup (w.clean p) mfs.disabled with _ | mp
    · exact ⟨h1, h2, h3, h4, h5, h6, h7⟩
    · show MfsInv w { mfs with
          available := ainsert (w.clean p) mp mfs.available,
          disabled := aerase (w.clean p) mfs.disabled }
      refine mfsInv_of_sub ⟨h1, h2, h3, h4, h5, h6, h7⟩ ?_ ?_ ?_ ?_ rfl h7
      · intro e he
        simp only [RegEntries, List.mem_append] at he ⊢
        rcases he with hl | hr
        · rcases mem_ainsert.mp hl with rfl | ⟨hmem, _⟩
          · exact Or.inr (mem_of_alookup hdis)
          · exact Or.inl hmem
        · exact Or.inr (mem_aerase.mp hr).1
      · exact akeys_nodup_ainsert h1
      · exact akeys_nodup_aerase h2
      · intro k hk
        rcases mem_akeys_ainsert.mp hk with rfl | ⟨hk1, hk2⟩
        · intro hc
          exact (mem_akeys_aerase.mp hc).2 rfl
        · intro hc
          exact h3 k hk1 (mem_akeys_aerase.mp hc).1

/-- `Disable` preserves the invariant. -/
theorem mfsInv_disable (w : FsWorld) (mfs : MountedFS) (p : String)
    (h : MfsInv w mfs) : MfsInv w (applyMfsOp w mfs (.disable p)) := by
  obtain ⟨h1, h2, h3, h4, h5, h6, h7⟩ := h
  show MfsInv w (MountedFS.Disable w mfs p).2
  have hD : MountedFS.Disable w mfs p
      = match alookup (w.clean p) mfs.available with
        | some mpathInfo =>
          ((true, true),
           { mfs with
               disabled := ainsert (w.clean p) mpathInfo mfs.disabled,
               available := aerase (w.clean p) mfs.available })
        | none =>
          if (alookup (w.clean p) mfs.disabled).isSome = true then ((false, true), mfs)
          else ((false, false), mfs) := rfl
  rw [hD]
  rcases hav : alookup (w.clean p) mfs.available with _ | mp
  · show MfsInv w ((if (alookup (w.clean p) mfs.disabled).isSome = true then
        ((false, true), mfs) else ((false, false), mfs)).2)
    rw [apply_ite Prod.snd, ite_self]
    exact ⟨h1, h2, h3, h4, h5, h6, h7⟩
  · show MfsInv w { mfs with
        disabled := ainsert (w.clean p) mp mfs.disabled,
        available := aerase (w.clean p) mfs.available }
    refine mfsInv_of_sub ⟨h1, h2, h3, h4, h5, h6, h7⟩ ?_ ?_ ?_ ?_ rfl h7
    · intro e he
      simp only [RegEntries, List.mem_append] at he ⊢
      rcases he with hl | hr
      · exact Or.inl (mem_aerase.mp hl).1
      · rcases mem_ainsert.mp hr with rfl | ⟨hmem, _⟩
        · exact Or.inl (mem_of_alookup hav)
        · exact Or.inr hmem
    · exact akeys_nodup_aerase h1
    · exact akeys_nodup_ainsert h2
    · intro k hk
      have hk' := mem_akeys_aerase.mp hk
      intro hc
      rcases mem_akeys_ainsert.mp hc with rfl | ⟨hc1, _⟩
      · exact hk'.2 rfl
      · exact h3 k hk'.1 hc1

/-- `Add` preserves the invariant (this is where the fsid check does the
work: a path whose filesystem is already registered — in particular a
currently disabled sibling of the same cleaned path — is turned away). -/
theorem mfsInv_add (w : FsWorld) (hw : ∀ p, w.fsidOf (w.clean p) = w.fsidOf p)
    (mfs : MountedFS) (p : String) (h : MfsInv w mfs) :
    MfsInv w (applyMfsOp w mfs (.add p)) := by
  obtain ⟨h1, h2, h3, h4, h5, h6, h7⟩ := h
  show MfsInv w (match MountedFS.Add w mfs p with
                 | .ok mfs' => mfs'
                 | .error _ => mfs)
  rcases hA : MountedFS.Add w mfs p with e | mfs'
  · exact ⟨h1, h2, h3, h4, h5, h6, h7⟩
  · show MfsInv w mfs'
    have hAdef : MountedFS.Add w mfs p
        = (if hasInvalidSegment p = true then
             Except.error "cannot add fspath with reserved suffix"
           else if ¬ w.statOk p = true then
             Except.error "fspath does not exist or cannot statfs"
           else if (alookup (newMountpath w p).path mfs.available).isSome = true then
             Except.error "tried to add already registered mountpath"
           else if (alookup (newMountpath w p).fsid mfs.fsIDs).isSome = true ∧
                   mfs.checkFsID = true then
             Except.error "tried to add path but same fsid was already registered"
           else
             Except.ok { mfs with
               available := ainsert (newMountpath w p).path (newMountpath w p) mfs.available,
               fsIDs := ainsert (newMountpath w p).fsid p mfs.fsIDs }) := rfl
    rw [hAdef] at hA
    by_cases hseg : hasInvalidSegment p = true
    · rw [if_pos hseg] at hA
      exact absurd hA (by simp)
    · rw [if_neg hseg] at hA
      by_cases hstat : w.statOk p = true
      · rw [if_neg (by simp [hstat])] at hA
        by_cases havail : (alookup (newMountpath w p).path mfs.available).isSome = true
        · rw [if_pos havail] at hA
          exact absurd hA (by simp)
        · rw [if_neg havail] at hA
          by_cases hfsid : (alookup (newMountpath w p).fsid mfs.fsIDs).isSome = true
          · rw [if_pos ⟨hfsid, h7⟩] at hA
            exact absurd hA (by simp)
          · rw [if_neg (fun hc => hfsid hc.1)] at hA
            obtain rfl := Except.ok.inj hA
            have hfnotin : (newMountpath w p).fsid ∉ akeys mfs.fsIDs := by
              intro hc
              exact hfsid (mem_akeys_iff_isSome.mp hc)
            have havnotin : (newMountpath w p).path ∉ akeys mfs.available := by
              intro hc
              exact havail (mem_akeys_iff_isSome.mp hc)
            refine ⟨akeys_nodup_ainsert h1, h2, ?_, ?_, ?_, ?_, h7⟩
            · intro k hk
              rcases mem_akeys_ainsert.mp hk with rfl | ⟨hk1, _⟩
              · intro hc
                rcases mem_akeys.mp hc with ⟨v, hv⟩
                have hreg : ((newMountpath w p).path, v) ∈ RegEntries mfs :=
                  List.mem_append_right _ hv
                have hvf : v.fsid = (newMountpath w p).fsid := by
                  have := h5 _ hreg
                  simp only [newMountpath] at this ⊢
                  rw [this]
                  exact hw p
                exact hfnotin (hvf ▸ h4 _ hreg)
              · exact h3 k hk1
            · intro e he
              simp only [RegEntries, List.mem_append] at he
              have hins : ∀ x, x ∈ akeys mfs.fsIDs →
                  x ∈ akeys (ainsert (newMountpath w p).fsid p mfs.fsIDs) := by
                intro x hx
                by_cases hxf : x = (newMountpath w p).fsid
                · exact mem_akeys_ainsert.mpr (Or.inl hxf)
                · exact mem_akeys_ainsert.mpr (Or.inr ⟨hx, hxf⟩)
              rcases he with hl | hr
              · rcases mem_ainsert.mp hl with rfl | ⟨hmem, _⟩
                · exact mem_akeys_ainsert.mpr (Or.inl rfl)
                · exact hins _ (h4 _ (List.mem_append_left _ hmem))
              · exact hins _ (h4 _ (List.mem_append_right _ hr))
            · intro e he
              simp only [RegEntries, List.mem_append] at he
              rcases he with hl | hr
              · rcases mem_ainsert.mp hl with rfl | ⟨hmem, _⟩
                · exact (hw p).symm
                · exact h5 e (List.mem_append_left _ hmem)
              · exact h5 e (List.mem_append_right _ hr)
            · have hold : ∀ e, e ∈ RegEntries
                  { mfs with
                      available := ainsert (newMountpath w p).path (newMountpath w p)
                                     mfs.available,
                      fsIDs := ainsert (newMountpath w p).fsid p mfs.fsIDs } →
                  e = ((newMountpath w p).path, newMountpath w p) ∨ e ∈ RegEntries mfs := by
                intro e he
                simp only [RegEntries, List.mem_append] at he
                rcases he with hl | hr
                · rcases mem_ainsert.mp hl with rfl | ⟨hmem, _⟩
                  · exact Or.inl rfl
                  · exact Or.inr (List.mem_append_left _ hmem)
                · exact Or.inr (List.mem_append_right _ hr)
              intro e₁ he₁ e₂ he₂ hne
              rcases hold e₁ he₁ with rfl | hr₁ <;> rcases hold e₂ he₂ with rfl | hr₂
              · exact absurd rfl hne
              · intro hfeq
                exact hfnotin (hfeq ▸ h4 e₂ hr₂)
              · intro hfeq
                exact hfnotin (hfeq ▸ h4 e₁ hr₁)
              · exact h6 e₁ hr₁ e₂ hr₂ hne
      · rw [if_pos (by simp [hstat])] at hA
        exact absurd hA (by simp)

/-- `Remove` preserves the invariant. -/
theorem mfsInv_remove (w : FsWorld) (mfs : MountedFS) (p : String)
    (h : MfsInv w mfs) : MfsInv w (applyMfsOp w mfs (.remove p)) := by
  obtain ⟨h1, h2, h3, h4, h5, h6, h7⟩ := h
  show MfsInv w (match MountedFS.Remove w mfs p with
                 | .ok r => r.mfs
                 | .error _ => mfs)
  rcases hR : MountedFS.Remove w mfs p with e | r
  · exact ⟨h1, h2, h3, h4, h5, h6, h7⟩
  · show MfsInv w r.mfs
    rcases hav : alookup (w.clean p) mfs.available with _ | mp
    · rcases hdis : alookup (w.clean p) mfs.disabled with _ | mp
      · simp [MountedFS.Remove, hav, hdis] at hR
      · simp only [MountedFS.Remove, hav, hdis] at hR
        obtain rfl := Except.ok.inj hR
        show MfsInv w { mfs with
            disabled := aerase (w.clean p) mfs.disabled,
            fsIDs := aerase mp.fsid mfs.fsIDs }
        have hkeydis : ∀ e, (e ∈ mfs.available ∨ e ∈ aerase (w.clean p) mfs.disabled) →
            e ∈ RegEntries mfs ∧ e.1 ≠ w.clean p := by
          intro e he
          rcases he with hl | hr
          · refine ⟨List.mem_append_left _ hl, ?_⟩
            intro hc
            have hmemav : w.clean p ∈ akeys mfs.available := by
              rw [← hc]
              exact mem_akeys.mpr ⟨e.2, hl⟩
            exact absurd hmemav (alookup_eq_none.mp hav)
          · obtain ⟨hmem, hne⟩ := mem_aerase.mp hr
            exact ⟨List.mem_append_right _ hmem, hne⟩
        have hmpreg : (w.clean p, mp) ∈ RegEntries mfs :=
          List.mem_append_right _ (mem_of_alookup hdis)
        refine ⟨h1, akeys_nodup_aerase h2, ?_, ?_, ?_, ?_, h7⟩
        · intro k hk hc
          exact h3 k hk (mem_akeys_aerase.mp hc).1
        · intro e he
          rw [RegEntries, List.mem_append] at he
          obtain ⟨hreg, hne⟩ := hkeydis e he
          refine mem_akeys_aerase.mpr ⟨h4 e hreg, ?_⟩
          exact h6 e hreg (w.clean p, mp) hmpreg hne
        · intro e he
          rw [RegEntries, List.mem_append] at he
          exact h5 e (hkeydis e he).1
        · intro e₁ he₁ e₂ he₂
          rw [RegEntries, List.mem_append] at he₁ he₂
          exact h6 e₁ (hkeydis e₁ he₁).1 e₂ (hkeydis e₂ he₂).1
    · simp only [MountedFS.Remove, hav] at hR
      obtain rfl := Except.ok.inj hR
      show MfsInv w { mfs with
          available := aerase (w.clean p) mfs.available,
          fsIDs := aerase mp.fsid mfs.fsIDs }
      have hkeyav : ∀ e, (e ∈ aerase (w.clean p) mfs.available ∨ e ∈ mfs.disabled) →
          e ∈ RegEntries mfs ∧ e.1 ≠ w.clean p := by
        intro e he
        rcases he with hl | hr
        · obtain ⟨hmem, hne⟩ := mem_aerase.mp hl
          exact ⟨List.mem_append_left _ hmem, hne⟩
        · refine ⟨List.mem_append_right _ hr, ?_⟩
          intro hc
          refine h3 (w.clean p) (mem_akeys_of_alookup hav) ?_
          rw [← hc]
          exact mem_akeys.mpr ⟨e.2, hr⟩
      have hmpreg : (w.clean p, mp) ∈ RegEntries mfs :=
        List.mem_append_left _ (mem_of_alookup hav)
      refine ⟨akeys_nodup_aerase h1, h2, ?_, ?_, ?_, ?_, h7⟩
      · intro k hk
        exact h3 k (mem_akeys_aerase.mp hk).1
      · intro e he
        rw [RegEntries, List.mem_append] at he
        obtain ⟨hreg, hne⟩ := hkeyav e he
        refine mem_akeys_aerase.mpr ⟨h4 e hreg, ?_⟩
        exact h6 e hreg (w.clean p, mp) hmpreg hne
      · intro e he
        rw [RegEntries, List.mem_append] at he
        exact h5 e (hkeyav e he).1
      · intro e₁ he₁ e₂ he₂
        rw [RegEntries, List.mem_append] at he₁ he₂
        exact h6 e₁ (hkeyav e₁ he₁).1 e₂ (hkeyav e₂ he₂).1

/-- Every operation preserves the invariant. -/
theorem mfsInv_step (w : FsWorld) (hw : ∀ p, w.fsidOf (w.clean p) = w.fsidOf p)
    (mfs : MountedFS) (op : MfsOp) (h : MfsInv w mfs) :
    MfsInv w (applyMfsOp w mfs op) := by
  cases op with
  | add p => exact mfsInv_add w hw mfs p h
  | remove p => exact mfsInv_remove w mfs p h
  | enable p => exact mfsInv_enable w mfs p h
  | disable p => exact mfsInv_disable w mfs p h

/-- The invariant holds after any operation sequence. -/
theorem mfsInv_run (w : FsWorld) (hw : ∀ p, w.fsidOf (w.clean p) = w.fsidOf p)
    (ops : List MfsOp) : MfsInv w (runMfsOps w ops) := by
  have hgen : ∀ (l : List MfsOp) (mfs : MountedFS), MfsInv w mfs →
      MfsInv w (l.foldl (applyMfsOp w) mfs) := by
    intro l
    induction l with
    | nil => intro mfs h; exact h
    | cons op rest ih =>
      intro mfs h
      exact ih (applyMfsOp w mfs op) (mfsInv_step w hw mfs op h)
  exact hgen ops NewMountedFS (mfsInv_init w)

/-- **C10**: after any sequence of `Add`, `Remove`, `Enable` and
`Disable` operations on a fresh `MountedFS` (in a filesystem world where
a path and its cleaned form live on the same filesystem), the published
available and disabled maps have disjoint key sets, and no two distinct
registered mountpaths share a filesystem identifier — each registered
fsid belongs to at most one registered path. -/
theorem mountedfs_invariant_spec (w : FsWorld)
    (hw : ∀ p, w.fsidOf (w.clean p) = w.fsidOf p) (ops : List MfsOp) :
    (∀ k ∈ akeys (runMfsOps w ops).available, k ∉ akeys (runMfsOps w ops).disabled) ∧
    (∀ e₁ ∈ RegEntries (runMfsOps w ops), ∀ e₂ ∈ RegEntries (runMfsOps w ops),
        e₁.1 ≠ e₂.1 → e₁.2.fsid ≠ e₂.2.fsid) := by
  obtain ⟨_, _, h3, _, _, h6, _⟩ := mfsInv_run w hw ops
  exact ⟨h3, h6⟩

/-- Witness for C10: a lifecycle run that adds `"a"` and `"bb"`,
disables `"a"`, attempts to re-add `"a"` (rejected by the fsid check),
re-enables it and removes `"bb"`. -/
theorem mountedfs_invariant_spec_witness :
    (∀ p, w0.fsidOf (w0.clean p) = w0.fsidOf p) ∧
    ((∀ k ∈ akeys (runMfsOps w0
         [.add "a", .add "bb", .disable "a", .add "a", .enable "a", .remove "bb"]).available,
        k ∉ akeys (runMfsOps w0
         [.add "a", .add "bb", .disable "a", .add "a", .enable "a", .remove "bb"]).disabled) ∧
     (∀ e₁ ∈ RegEntries (runMfsOps w0
         [.add "a", .add "bb", .disable "a", .add "a", .enable "a", .remove "bb"]),
        ∀ e₂ ∈ RegEntries (runMfsOps w0
         [.add "a", .add "bb", .disable "a", .add "a", .enable "a", .remove "bb"]),
        e₁.1 ≠ e₂.1 → e₁.2.fsid ≠ e₂.2.fsid)) :=
  ⟨fun p => rfl,
   mountedfs_invariant_spec w0 (fun p => rfl)
     [.add "a", .add "bb", .disable "a", .add "a", .enable "a", .remove "bb"]⟩

end AIStore
